import Mathlib

/-!
Shallow embedding of the NCBI accession-resolution service
(`src/api/main.py`) and proofs about it.

The embedding models, faithfully to the Python source:
* the module constants (`MAX_RETRIES`, `REQUEST_TIMEOUT`, `REQUEST_DELAY`,
  `NUM_WORKERS`) and the accession regular expression `ACCESSION_PATTERN`;
* parameter validation (`FetchAccessionParams`, a pydantic model with
  bounded fields and defaults);
* `fetch_data` (single remote call with payload-level rate-limit handling,
  a per-issue 15-second request timeout, and a post-response delay sleep);
* `fetch_nuccore` (per-term resolution: search, candidate enumeration,
  validation, retry loop with exponential backoff);
* `fetch_all_nuccore` / `fetch_accession` (batch dispatch writing one
  result per term into a dictionary, last writer wins);
* the worker pool / semaphore concurrency discipline, as a transition
  system.

Network behaviour is an oracle (`Env`): for each term-level retry index it
describes how each remote call behaves (how many rate-limited responses
precede the real one, network durations, and the final payload or
transport failure).  All functions also produce a trace of events (network
waits, delay sleeps, rate-limit sleeps, backoff sleeps, which calls were
issued) so that timing and call-count properties can be stated.
-/

namespace NCBI

/-- `MAX_RETRIES = 5` (src/api/main.py line 10). -/
def MAX_RETRIES : Nat := 5

/-- `REQUEST_TIMEOUT = 15` seconds (src/api/main.py line 11). -/
def REQUEST_TIMEOUT : ℚ := 15

/-- `REQUEST_DELAY = 0.5` seconds (src/api/main.py line 12). -/
def REQUEST_DELAY : ℚ := 1/2

/-- `NUM_WORKERS = 5` (src/api/main.py line 13). -/
def NUM_WORKERS : Nat := 5

/-- `[A-Za-z]` as a character predicate. -/
def isAsciiLetter (c : Char) : Bool :=
  ('A' ≤ c && c ≤ 'Z') || ('a' ≤ c && c ≤ 'z')

/-- `\d` (`[0-9]`) as a character predicate. -/
def isAsciiDigit (c : Char) : Bool :=
  '0' ≤ c && c ≤ '9'

/-- Consume exactly `n` leading characters satisfying `p`, returning the
remainder, or `none` if fewer than `n` such characters lead the list. -/
def dropCount (p : Char → Bool) : Nat → List Char → Option (List Char)
  | 0, s => some s
  | _ + 1, [] => none
  | n + 1, c :: s => if p c then dropCount p n s else none

/-- One alternative of `ACCESSION_PATTERN`: `nl` letters, then `nd`
digits, then a literal dot, anchored at the start of the string. -/
def matchShape (nl nd : Nat) (s : List Char) : Bool :=
  match dropCount isAsciiLetter nl s with
  | none => false
  | some s1 =>
    match dropCount isAsciiDigit nd s1 with
    | none => false
    | some [] => false
    | some (c :: _) => c = '.'

/-- `re.match(ACCESSION_PATTERN, s)` where
`ACCESSION_PATTERN = r'^[A-Za-z]\d{5}\.|^[A-Za-z]{2}\d{6}\.|^[A-Za-z]{2}\d{8}\.'`
(src/api/main.py line 17): anchored alternation of the three shapes. -/
def accessionMatches (s : String) : Bool :=
  matchShape 1 5 s.data || matchShape 2 6 s.data || matchShape 2 8 s.data

/-- `title_term = term if '/' in term else f'/{term}/'`
(src/api/main.py line 108). -/
def titleTerm (term : String) : String :=
  if term.data.contains '/' then term else "/" ++ term ++ "/"

/-- Python's substring containment `needle in hay`. -/
def isSubstr (needle hay : String) : Bool :=
  decide (needle.data <:+: hay.data)

/-- Declarative reading of the accession format rule: the string starts
with one of the three shapes — letters, then digits, then a dot — with
the letter/digit counts being (1,5), (2,6) or (2,8). -/
def ShapeAtStart (a : String) : Prop :=
  ∃ l d rest : List Char,
    a.data = l ++ d ++ '.' :: rest ∧
    (∀ c ∈ l, isAsciiLetter c = true) ∧
    (∀ c ∈ d, isAsciiDigit c = true) ∧
    ((l.length = 1 ∧ d.length = 5) ∨
     (l.length = 2 ∧ d.length = 6) ∨
     (l.length = 2 ∧ d.length = 8))

lemma dropCount_eq_some_iff (p : Char → Bool) :
    ∀ (n : Nat) (s s' : List Char),
      dropCount p n s = some s' ↔
        ∃ pre, s = pre ++ s' ∧ pre.length = n ∧ ∀ c ∈ pre, p c = true := by
  intro n
  induction n with
  | zero =>
    intro s s'
    simp only [dropCount, Option.some.injEq]
    constructor
    · rintro rfl
      exact ⟨[], by simp⟩
    · rintro ⟨pre, hs, hlen, _⟩
      rw [List.length_eq_zero] at hlen
      simp [hlen] at hs
      simp [hs]
  | succ n ih =>
    intro s s'
    cases s with
    | nil =>
      simp only [dropCount]
      constructor
      · intro h; exact absurd h (by simp)
      · rintro ⟨pre, hs, hlen, _⟩
        cases pre with
        | nil => simp at hlen
        | cons a t => simp at hs
    | cons c t =>
      simp only [dropCount]
      by_cases hc : p c = true
      · rw [if_pos hc, ih]
        constructor
        · rintro ⟨pre, rfl, hlen, hall⟩
          exact ⟨c :: pre, by simp, by simp [hlen], by
            intro x hx
            rcases List.mem_cons.1 hx with rfl | hx
            · exact hc
            · exact hall x hx⟩
        · rintro ⟨pre, hs, hlen, hall⟩
          cases pre with
          | nil => simp at hlen
          | cons a pt =>
            simp only [List.cons_append, List.cons.injEq] at hs
            obtain ⟨rfl, rfl⟩ := hs
            exact ⟨pt, rfl, by simpa using hlen, fun x hx => hall x (List.mem_cons_of_mem _ hx)⟩
      · rw [if_neg hc]
        constructor
        · intro h; exact absurd h (by simp)
        · rintro ⟨pre, hs, hlen, hall⟩
          cases pre with
          | nil => simp at hlen
          | cons a pt =>
            simp only [List.cons_append, List.cons.injEq] at hs
            exact absurd (hs.1 ▸ hall a (List.mem_cons_self a pt)) hc

lemma matchShape_eq_true_iff (nl nd : Nat) (s : List Char) :
    matchShape nl nd s = true ↔
      ∃ l d rest : List Char,
        s = l ++ d ++ '.' :: rest ∧ l.length = nl ∧ d.length = nd ∧
        (∀ c ∈ l, isAsciiLetter c = true) ∧ (∀ c ∈ d, isAsciiDigit c = true) := by
  constructor
  · intro h
    unfold matchShape at h
    split at h
    · exact absurd h (by simp)
    · rename_i s1 h1
      split at h
      · exact absurd h (by simp)
      · exact absurd h (by simp)
      · rename_i s2 c tl h2
        have hc : c = '.' := by simpa using h
        subst hc
        obtain ⟨l, rfl, hl, hlall⟩ := (dropCount_eq_some_iff _ _ _ _).1 h1
        obtain ⟨d, hdq, hd, hdall⟩ := (dropCount_eq_some_iff _ _ _ _).1 h2
        exact ⟨l, d, tl, by rw [hdq]; simp, hl, hd, hlall, hdall⟩
  · rintro ⟨l, d, rest, rfl, hl, hd, hlall, hdall⟩
    have h1 : dropCount isAsciiLetter nl (l ++ d ++ '.' :: rest) = some (d ++ '.' :: rest) :=
      (dropCount_eq_some_iff _ _ _ _).2 ⟨l, by simp, hl, hlall⟩
    have h2 : dropCount isAsciiDigit nd (d ++ '.' :: rest) = some ('.' :: rest) :=
      (dropCount_eq_some_iff _ _ _ _).2 ⟨d, by simp, hd, hdall⟩
    unfold matchShape
    split
    · rename_i heq
      rw [h1] at heq
      exact absurd heq (by simp)
    · rename_i s1 heq
      rw [h1] at heq
      injection heq with heq
      subst heq
      split
      · rename_i heq2
        rw [h2] at heq2
        exact absurd heq2 (by simp)
      · rename_i heq2
        rw [h2] at heq2
        simp at heq2
      · rename_i c tl heq2
        rw [h2] at heq2
        injection heq2 with heq2
        injection heq2 with hc ht
        simp [← hc]

lemma accessionMatches_iff (a : String) :
    accessionMatches a = true ↔ ShapeAtStart a := by
  unfold accessionMatches ShapeAtStart
  rw [Bool.or_eq_true, Bool.or_eq_true,
      matchShape_eq_true_iff, matchShape_eq_true_iff, matchShape_eq_true_iff]
  constructor
  · rintro ((⟨l, d, rest, h, hl, hd, ha, hb⟩ | ⟨l, d, rest, h, hl, hd, ha, hb⟩) |
            ⟨l, d, rest, h, hl, hd, ha, hb⟩)
    · exact ⟨l, d, rest, h, ha, hb, Or.inl ⟨hl, hd⟩⟩
    · exact ⟨l, d, rest, h, ha, hb, Or.inr (Or.inl ⟨hl, hd⟩)⟩
    · exact ⟨l, d, rest, h, ha, hb, Or.inr (Or.inr ⟨hl, hd⟩)⟩
  · rintro ⟨l, d, rest, h, ha, hb, (⟨hl, hd⟩ | ⟨hl, hd⟩ | ⟨hl, hd⟩)⟩
    · exact Or.inl (Or.inl ⟨l, d, rest, h, hl, hd, ha, hb⟩)
    · exact Or.inl (Or.inr ⟨l, d, rest, h, hl, hd, ha, hb⟩)
    · exact Or.inr ⟨l, d, rest, h, hl, hd, ha, hb⟩

/-- The validated parameter set `FetchAccessionParams`
(src/api/main.py lines 21-42), with the pydantic defaults applied. -/
structure Params where
  api_key : Option String := none
  timeout : Nat := 15
  num_workers : Nat := 5
  max_retries : Nat := 5
  request_delay : ℚ := 1/2
deriving DecidableEq

/-- Caller-supplied raw parameters before pydantic validation: every
field optional; `none` means "omitted, use the default". -/
structure RawParams where
  api_key : Option String := none
  timeout : Option Nat := none
  num_workers : Option Nat := none
  max_retries : Option Nat := none
  request_delay : Option ℚ := none

/-- Pydantic validation of `FetchAccessionParams`: apply defaults for
omitted fields, then enforce the `Field` bounds
`timeout ∈ [0,500]`, `num_workers ∈ [1,10]`, `max_retries ∈ [0,10]`,
`request_delay ∈ [0.001, 60]` (src/api/main.py lines 38-42). -/
def validateParams (r : RawParams) : Option Params :=
  let t := r.timeout.getD 15
  let nw := r.num_workers.getD 5
  let mr := r.max_retries.getD 5
  let rd := r.request_delay.getD (1/2)
  if t ≤ 500 ∧ 1 ≤ nw ∧ nw ≤ 10 ∧ mr ≤ 10 ∧ (1/1000 : ℚ) ≤ rd ∧ rd ≤ 60 then
    some { api_key := r.api_key, timeout := t, num_workers := nw,
           max_retries := mr, request_delay := rd }
  else none

/-- Transport-level failure classes of a remote call:
`aiohttp.ClientError` or `asyncio.TimeoutError`. -/
inductive FetchErr
  | transport
  | timeout
deriving DecidableEq

/-- The fields of one summary record,
`summary_data['result'].get(uid, {})` — `accessionversion` and `title`
each possibly absent (src/api/main.py lines 130-131). -/
structure Summary where
  accessionversion : Option String := none
  title : Option String := none
deriving DecidableEq

/-- Network-side behaviour of one logical remote call: the server answers
`rl` consecutive rate-limited responses (the k-th taking `rlDur k`
seconds of network time), then a final response taking `dur` seconds
that either carries the payload or fails at transport level. -/
structure CallBeh (α : Type) where
  rl : Nat
  rlDur : Nat → ℚ
  dur : ℚ
  resp : Except FetchErr α

/-- Observable events of a run: network waits, the post-response
`request_delay` sleep, rate-limit sleeps (src/api/main.py line 173),
term-level backoff sleeps (line 141), and which remote calls were
issued (search / summary, tagged with the term-level retry index). -/
inductive Ev
  | net (d : ℚ)
  | delay (d : ℚ)
  | rateSleep (d : ℚ)
  | backoffSleep (d : ℚ)
  | searchCall (r : Nat)
  | summaryCall (r : Nat) (uid : String)
deriving DecidableEq

/-- `fetch_data` (src/api/main.py lines 150-179): issue the request with
the fixed per-issue timeout `REQUEST_TIMEOUT`; on response, sleep
`request_delay`; if the payload carries the rate-limit signal, sleep
`2^ctr` seconds and re-issue with `ctr + 1` — where `ctr` is the
`retries` argument the caller passed in.  Recursion is on the number of
rate-limited responses the network will give (`rl`). -/
def fetchDataGo {α : Type} (delay : ℚ) :
    Nat → (Nat → ℚ) → ℚ → Except FetchErr α → Nat → Nat →
    Except FetchErr α × List Ev
  | 0, _, dur, resp, _, _ =>
    if REQUEST_TIMEOUT < dur then (.error .timeout, [.net REQUEST_TIMEOUT])
    else
      match resp with
      | .error e => (.error e, [.net dur])
      | .ok a => (.ok a, [.net dur, .delay delay])
  | rl + 1, rlDur, dur, resp, ctr, k =>
    if REQUEST_TIMEOUT < rlDur k then (.error .timeout, [.net REQUEST_TIMEOUT])
    else
      let rest := fetchDataGo delay rl rlDur dur resp (ctr + 1) (k + 1)
      (rest.1, .net (rlDur k) :: .delay delay :: .rateSleep (2 ^ ctr) :: rest.2)

/-- One invocation of `fetch_data(session, url, retries, params)` against
the network behaviour `b`, with the caller's `retries` value seeding the
rate-limit exponent (src/api/main.py lines 114-117 and 126-129 pass the
term-level `retries` here). -/
def runCall {α : Type} (b : CallBeh α) (retries : Nat) (delay : ℚ) :
    Except FetchErr α × List Ev :=
  fetchDataGo delay b.rl b.rlDur b.dur b.resp retries 0

/-- The network oracle for one term: for each term-level retry index,
the behaviour of the search call and of the summary call of each id. -/
structure Env where
  search : Nat → CallBeh (List String)
  summary : Nat → String → CallBeh Summary

/-- Outcome of examining one candidate (src/api/main.py lines 130-134):
skip it, return its accession, or hit the `TypeError` of
`title_term in None` (accession present and matching the pattern but
title absent), an unexpected error. -/
inductive StepRes
  | skip
  | found (acc : String)
  | bad
deriving DecidableEq

/-- The candidate test
`if accession_result and re.match(ACCESSION_PATTERN, accession_result)
and title_term in title_result` with Python short-circuit semantics
(src/api/main.py line 133). -/
def candStep (term : String) (s : Summary) : StepRes :=
  match s.accessionversion with
  | none => .skip
  | some a =>
    if a = "" then .skip
    else if accessionMatches a then
      match s.title with
      | none => .bad
      | some t => if isSubstr (titleTerm term) t then .found a else .skip
    else .skip

/-- Result of one attempt of the `while retries < params.max_retries`
body: a normal return value, a transient failure (caught at line 138),
or an unexpected failure (caught at line 142). -/
inductive AttemptRes
  | done (acc : Option String)
  | transient (e : FetchErr)
  | unexpected
deriving DecidableEq

/-- The `for uid in id_list` loop (src/api/main.py lines 125-134):
summarize each id in order; stop at the first candidate that validates
(returning its accession), abort on an unexpected error, propagate
transport failures, fall through to `None`. -/
def scanIds (env : Env) (p : Params) (term : String) (r : Nat) :
    List String → AttemptRes × List Ev
  | [] => (.done none, [])
  | uid :: rest =>
    let call := runCall (env.summary r uid) r p.request_delay
    let tr := Ev.summaryCall r uid :: call.2
    match call.1 with
    | .error e => (.transient e, tr)
    | .ok s =>
      match candStep term s with
      | .found a => (.done (some a), tr)
      | .bad => (.unexpected, tr)
      | .skip =>
        let rest' := scanIds env p term r rest
        (rest'.1, tr ++ rest'.2)

/-- Sum of the durations of all waiting events in a trace. -/
def elapsed (tr : List Ev) : ℚ :=
  (tr.map fun e =>
    match e with
    | .net d => d
    | .delay d => d
    | .rateSleep d => d
    | .backoffSleep d => d
    | .searchCall _ => 0
    | .summaryCall _ _ => 0).sum

/-- One iteration of the retry loop body (src/api/main.py lines 112-136):
the search call runs inside `asyncio.timeout(params.timeout)` (lines
113-117, wrapping only the search), so it raises `TimeoutError` if its
total duration exceeds `params.timeout`; the id list is read, an empty
list returns `None` immediately, otherwise at most the first 10 ids are
scanned. -/
def attempt (env : Env) (p : Params) (term : String) (r : Nat) :
    AttemptRes × List Ev :=
  let call := runCall (env.search r) r p.request_delay
  let str := Ev.searchCall r :: call.2
  if (p.timeout : ℚ) < elapsed call.2 then (.transient .timeout, str)
  else
    match call.1 with
    | .error e => (.transient e, str)
    | .ok ids =>
      if ids.isEmpty then (.done none, str)
      else
        let ids10 := if ids.length > 10 then ids.take 10 else ids
        let sc := scanIds env p term r ids10
        (sc.1, str ++ sc.2)

/-- The retry loop `while retries < params.max_retries` (src/api/main.py
lines 111-147): on a transient failure wait
`min(1 + 2^retries, 10)` seconds (`handle_retry_error`, line 192),
increment `retries` and re-attempt; on an unexpected failure or after
exhausting the budget return `None`.  `fuel = max_retries - retries`. -/
def fetchLoop (env : Env) (p : Params) (term : String) :
    Nat → Nat → Option String × List Ev
  | _, 0 => (none, [])
  | r, fuel + 1 =>
    let a := attempt env p term r
    match a.1 with
    | .done acc => (acc, a.2)
    | .unexpected => (none, a.2)
    | .transient _ =>
      let w : ℚ := min (1 + 2 ^ r) 10
      let rest := fetchLoop env p term (r + 1) fuel
      (rest.1, a.2 ++ Ev.backoffSleep w :: rest.2)

/-- `fetch_nuccore` (src/api/main.py lines 88-147) for one term, run
against the network oracle `env`: the resolved accession (or `none`)
together with the event trace. -/
def fetchNuccore (env : Env) (p : Params) (term : String) :
    Option String × List Ev :=
  fetchLoop env p term 0 p.max_retries

/-- `results[term] = result` on a Python dict: overwrite the value if the
key is present (keeping its position), else append the pair. -/
def dictInsert (m : List (String × Option String)) (k : String)
    (v : Option String) : List (String × Option String) :=
  if m.any (fun kv => kv.1 = k) then
    m.map (fun kv => if kv.1 = k then (k, v) else kv)
  else m ++ [(k, v)]

/-- Python dict lookup `m.get(k)` (as `some value` when present). -/
def dictLookup (m : List (String × Option String)) (k : String) :
    Option (Option String) :=
  (m.find? (fun kv => kv.1 = k)).map Prod.snd

/-- The keys of the result dict, in insertion order. -/
def dictKeys (m : List (String × Option String)) : List String :=
  m.map Prod.fst

/-- `fetch_all_nuccore` (src/api/main.py lines 197-237) composed with the
worker bodies (lines 240-271): every queued term is claimed by exactly
one worker, resolved by `fetch_nuccore` (any worker-level exception is
caught and recorded as `None`, lines 267-269), and its outcome written
into `results` keyed by the term.  Writes happen once per queue item, so
the dict is the fold of `results[term] = result` over the term list. -/
def fetchAllNuccore (tenv : String → Env) (p : Params)
    (terms : List String) : List (String × Option String) :=
  terms.foldl (fun m t => dictInsert m t (fetchNuccore (tenv t) p t).1) []

/-- Python's `str.split(",")`: cut the character list at every comma;
the result always has at least one (possibly empty) group. -/
def splitComma : List Char → List (List Char)
  | [] => [[]]
  | c :: rest =>
    match splitComma rest with
    | [] => [[]]
    | g :: gs => if c = ',' then [] :: g :: gs else (c :: g) :: gs

/-- Python's `str.strip()`: drop leading and trailing whitespace. -/
def stripChars (s : List Char) : List Char :=
  ((s.dropWhile Char.isWhitespace).reverse.dropWhile Char.isWhitespace).reverse

/-- `[term.strip() for term in terms.split(",")]`
(src/api/main.py line 82). -/
def splitTrim (raw : String) : List String :=
  (splitComma raw.data).map (fun g => String.mk (stripChars g))

/-- The `/fetch-accession/` handler (src/api/main.py lines 56-85): split
the query string on commas, strip whitespace from each term, and run the
batch. -/
def fetchAccession (tenv : String → Env) (p : Params) (terms : String) :
    List (String × Option String) :=
  fetchAllNuccore tenv p (splitTrim terms)

/-- The backoff sleeps of a trace, in order. -/
def backoffs (tr : List Ev) : List ℚ :=
  tr.filterMap fun e =>
    match e with
    | .backoffSleep d => some d
    | _ => none

/-- The rate-limit sleeps of a trace, in order. -/
def rateSleeps (tr : List Ev) : List ℚ :=
  tr.filterMap fun e =>
    match e with
    | .rateSleep d => some d
    | _ => none

/-- How many search calls a trace contains (= number of attempts made). -/
def searchCount (tr : List Ev) : Nat :=
  (tr.filterMap fun e =>
    match e with
    | .searchCall r => some r
    | _ => none).length

/-- The ids that were actually summarized, in call order. -/
def summarized (tr : List Ev) : List String :=
  tr.filterMap fun e =>
    match e with
    | .summaryCall _ uid => some uid
    | _ => none

/-! ### Worker pool and semaphore (src/api/main.py lines 110, 210, 220-235)

`fetch_all_nuccore` creates `asyncio.Semaphore(3)` and `num_workers`
workers; each worker claims one term at a time from the queue and runs
`fetch_nuccore`, which does `async with semaphore:` around the whole
retry sequence.  We model the lifecycle of each queued term as a state,
and the scheduler as a step relation: a worker may claim a pending term
only while fewer than `w` terms are claimed-but-unfinished (each of the
`w` workers handles at most one term at a time), a claimed term may
acquire the semaphore only while fewer than 3 terms hold it, and a
holding term releases it when its retry sequence completes. -/

/-- Lifecycle state of one queued term. -/
inductive TaskSt
  | pending
  | waiting
  | holding
  | finished
deriving DecidableEq

/-- How many tasks are in state `x`. -/
def countSt (x : TaskSt) (l : List TaskSt) : Nat :=
  (l.filter (fun s => s = x)).length

/-- One scheduler step of the worker pool with `w` workers and the
semaphore of capacity 3. -/
inductive PoolStep (w : Nat) : List TaskSt → List TaskSt → Prop
  | claim (l : List TaskSt) (i : Nat) (h : i < l.length) :
      l.get ⟨i, h⟩ = .pending →
      countSt .waiting l + countSt .holding l < w →
      PoolStep w l (l.set i .waiting)
  | acquire (l : List TaskSt) (i : Nat) (h : i < l.length) :
      l.get ⟨i, h⟩ = .waiting →
      countSt .holding l < 3 →
      PoolStep w l (l.set i .holding)
  | release (l : List TaskSt) (i : Nat) (h : i < l.length) :
      l.get ⟨i, h⟩ = .holding →
      PoolStep w l (l.set i .finished)

/-- Pool states reachable from a freshly loaded queue of `n` terms. -/
inductive PoolReach (w : Nat) : List TaskSt → Prop
  | init (n : Nat) : PoolReach w (List.replicate n .pending)
  | step {s t : List TaskSt} : PoolReach w s → PoolStep w s t → PoolReach w t

lemma countSt_cons (x a : TaskSt) (l : List TaskSt) :
    countSt x (a :: l) = (if a = x then 1 else 0) + countSt x l := by
  by_cases h : a = x
  · simp [countSt, List.filter, h]
    omega
  · simp [countSt, List.filter, h]

lemma countSt_set (x y : TaskSt) :
    ∀ (l : List TaskSt) (i : Nat) (h : i < l.length),
      countSt x (l.set i y) + (if l.get ⟨i, h⟩ = x then 1 else 0)
        = countSt x l + (if y = x then 1 else 0) := by
  intro l
  induction l with
  | nil => intro i h; simp at h
  | cons a t ih =>
    intro i h
    cases i with
    | zero =>
      simp only [List.set, List.get, countSt_cons]
      omega
    | succ j =>
      have hj : j < t.length := by simpa using h
      have := ih j hj
      simp only [List.set, List.get, countSt_cons]
      omega

lemma countSt_replicate_pending (x : TaskSt) (n : Nat) (hx : x ≠ .pending) :
    countSt x (List.replicate n .pending) = 0 := by
  induction n with
  | zero => rfl
  | succ m ih =>
    rw [List.replicate_succ, countSt_cons, ih]
    have : ¬(TaskSt.pending = x) := fun h => hx h.symm
    simp [this]

/-! ### Dictionary lemmas -/

lemma dictLookup_nil (k : String) : dictLookup [] k = none := rfl

lemma dictLookup_cons (kv : String × Option String)
    (m : List (String × Option String)) (k : String) :
    dictLookup (kv :: m) k =
      if kv.1 = k then some kv.2 else dictLookup m k := by
  by_cases h : kv.1 = k <;> simp [dictLookup, List.find?, h]

lemma dictKeys_nil : dictKeys [] = [] := rfl

lemma dictKeys_cons (kv : String × Option String)
    (m : List (String × Option String)) :
    dictKeys (kv :: m) = kv.1 :: dictKeys m := rfl

lemma any_key_iff (m : List (String × Option String)) (k : String) :
    m.any (fun kv => kv.1 = k) = true ↔ k ∈ dictKeys m := by
  induction m with
  | nil => simp [dictKeys]
  | cons kv rest ih =>
    rw [List.any_cons, dictKeys_cons, Bool.or_eq_true, ih, List.mem_cons]
    constructor
    · rintro (h | h)
      · exact Or.inl (of_decide_eq_true h).symm
      · exact Or.inr h
    · rintro (h | h)
      · exact Or.inl (by simp [h])
      · exact Or.inr h

lemma dictLookup_replace (k : String) (v : Option String) :
    ∀ m : List (String × Option String), k ∈ dictKeys m →
      dictLookup (m.map (fun kv => if kv.1 = k then (k, v) else kv)) k
        = some v := by
  intro m
  induction m with
  | nil => simp [dictKeys]
  | cons kv rest ih =>
    intro hmem
    rw [List.map_cons]
    by_cases h : kv.1 = k
    · rw [if_pos h, dictLookup_cons]
      simp
    · rw [if_neg h, dictLookup_cons, if_neg h]
      rw [dictKeys_cons, List.mem_cons] at hmem
      rcases hmem with hmem | hmem
      · exact absurd hmem.symm h
      · exact ih hmem

lemma dictLookup_replace_ne (k k' : String) (v : Option String)
    (hne : k' ≠ k) (m : List (String × Option String)) :
    dictLookup (m.map (fun kv => if kv.1 = k then (k, v) else kv)) k'
      = dictLookup m k' := by
  induction m with
  | nil => rfl
  | cons kv rest ih =>
    rw [List.map_cons]
    by_cases h : kv.1 = k
    · rw [if_pos h, dictLookup_cons, dictLookup_cons, ih]
      have : ¬(k = k') := fun hh => hne hh.symm
      simp only [this, if_false]
      rw [if_neg (h ▸ this)]
    · rw [if_neg h, dictLookup_cons, dictLookup_cons, ih]

lemma dictLookup_append_right (k : String)
    (m m' : List (String × Option String)) (h : k ∉ dictKeys m) :
    dictLookup (m ++ m') k = dictLookup m' k := by
  induction m with
  | nil => rfl
  | cons kv rest ih =>
    rw [dictKeys_cons, List.mem_cons] at h
    push_neg at h
    rw [List.cons_append, dictLookup_cons, if_neg (fun hh => h.1 hh.symm)]
    exact ih h.2

lemma dictLookup_insert_self (m : List (String × Option String))
    (k : String) (v : Option String) :
    dictLookup (dictInsert m k v) k = some v := by
  unfold dictInsert
  by_cases h : m.any (fun kv => kv.1 = k) = true
  · rw [if_pos h]
    exact dictLookup_replace k v m ((any_key_iff m k).1 h)
  · rw [if_neg h]
    have hk : k ∉ dictKeys m := fun hmem => h ((any_key_iff m k).2 hmem)
    rw [dictLookup_append_right k m _ hk, dictLookup_cons]
    simp

lemma dictLookup_insert_ne (m : List (String × Option String))
    (k k' : String) (v : Option String) (hne : k' ≠ k) :
    dictLookup (dictInsert m k v) k' = dictLookup m k' := by
  unfold dictInsert
  by_cases h : m.any (fun kv => kv.1 = k) = true
  · rw [if_pos h]
    exact dictLookup_replace_ne k k' v hne m
  · rw [if_neg h]
    induction m with
    | nil =>
      rw [List.nil_append, dictLookup_cons, if_neg (fun hh => hne hh.symm)]
    | cons kv rest ih =>
      rw [List.cons_append, dictLookup_cons, dictLookup_cons]
      by_cases hk : kv.1 = k'
      · rw [if_pos hk, if_pos hk]
      · rw [if_neg hk, if_neg hk]
        exact ih (by
          intro hany
          exact h (by
            rw [List.any_cons, Bool.or_eq_true]
            exact Or.inr hany))

lemma dictKeys_insert (m : List (String × Option String))
    (k : String) (v : Option String) :
    dictKeys (dictInsert m k v)
      = if k ∈ dictKeys m then dictKeys m else dictKeys m ++ [k] := by
  unfold dictInsert
  by_cases h : m.any (fun kv => kv.1 = k) = true
  · rw [if_pos h, if_pos ((any_key_iff m k).1 h)]
    unfold dictKeys
    rw [List.map_map]
    apply List.map_congr_left
    intro kv _
    by_cases hk : kv.1 = k
    · simp [hk]
    · simp [hk]
  · have hk : k ∉ dictKeys m := fun hmem => h ((any_key_iff m k).2 hmem)
    rw [if_neg h, if_neg hk]
    unfold dictKeys
    rw [List.map_append]
    rfl

lemma dictKeys_insert_nodup (m : List (String × Option String))
    (k : String) (v : Option String) (h : (dictKeys m).Nodup) :
    (dictKeys (dictInsert m k v)).Nodup := by
  rw [dictKeys_insert]
  by_cases hk : k ∈ dictKeys m
  · rw [if_pos hk]; exact h
  · rw [if_neg hk]
    exact List.Nodup.append h (List.nodup_singleton k) (by
      intro a ha hb
      rw [List.mem_singleton] at hb
      exact hk (hb ▸ ha))

lemma mem_dictKeys_insert (m : List (String × Option String))
    (k k' : String) (v : Option String) :
    k' ∈ dictKeys (dictInsert m k v) ↔ k' ∈ dictKeys m ∨ k' = k := by
  rw [dictKeys_insert]
  by_cases hk : k ∈ dictKeys m
  · rw [if_pos hk]
    constructor
    · exact Or.inl
    · rintro (h | rfl)
      · exact h
      · exact hk
  · rw [if_neg hk, List.mem_append, List.mem_singleton]

/-! ### Fold lemmas for the batch dictionary -/

lemma foldIns_lookup_not_mem (f : String → Option String) :
    ∀ (ts : List String) (m : List (String × Option String)) (t : String),
      t ∉ ts →
      dictLookup (ts.foldl (fun acc u => dictInsert acc u (f u)) m) t
        = dictLookup m t := by
  intro ts
  induction ts with
  | nil => intro m t _; rfl
  | cons u rest ih =>
    intro m t ht
    rw [List.mem_cons] at ht
    push_neg at ht
    rw [List.foldl_cons, ih _ _ ht.2, dictLookup_insert_ne _ _ _ _ ht.1]

lemma foldIns_lookup_mem (f : String → Option String) :
    ∀ (ts : List String) (m : List (String × Option String)) (t : String),
      t ∈ ts →
      dictLookup (ts.foldl (fun acc u => dictInsert acc u (f u)) m) t
        = some (f t) := by
  intro ts
  induction ts with
  | nil => intro m t h; exact absurd h (List.not_mem_nil t)
  | cons u rest ih =>
    intro m t ht
    rw [List.foldl_cons]
    by_cases hrest : t ∈ rest
    · exact ih _ _ hrest
    · rw [List.mem_cons] at ht
      rcases ht with rfl | ht
      · rw [foldIns_lookup_not_mem f rest _ t hrest, dictLookup_insert_self]
      · exact absurd ht hrest

lemma foldIns_mem_keys (f : String → Option String) :
    ∀ (ts : List String) (m : List (String × Option String)) (t : String),
      t ∈ dictKeys (ts.foldl (fun acc u => dictInsert acc u (f u)) m)
        ↔ t ∈ dictKeys m ∨ t ∈ ts := by
  intro ts
  induction ts with
  | nil => intro m t; simp
  | cons u rest ih =>
    intro m t
    rw [List.foldl_cons, ih, mem_dictKeys_insert, List.mem_cons]
    tauto

lemma foldIns_keys_nodup (f : String → Option String) :
    ∀ (ts : List String) (m : List (String × Option String)),
      (dictKeys m).Nodup →
      (dictKeys (ts.foldl (fun acc u => dictInsert acc u (f u)) m)).Nodup := by
  intro ts
  induction ts with
  | nil => intro m h; exact h
  | cons u rest ih =>
    intro m h
    rw [List.foldl_cons]
    exact ih _ (dictKeys_insert_nodup m u (f u) h)

/-! ### Claim theorems -/

/-- C2: a candidate validates (the scan returns its accession) if and
only if (1) its accession string starts with one of the three shapes —
one letter + 5 digits + dot, two letters + 6 digits + dot, or two
letters + 8 digits + dot — and (2) `titleTerm` is a substring of its
title, where `titleTerm` is the term itself when the term contains `/`
and `"/" ++ term ++ "/"` otherwise. -/
theorem C2_candidate_validation (s : Summary) (term a : String) :
    candStep term s = StepRes.found a ↔
      s.accessionversion = some a ∧ ShapeAtStart a ∧
      ∃ t, s.title = some t ∧ (titleTerm term).data <:+: t.data := by
  obtain ⟨acc, title⟩ := s
  cases acc with
  | none => simp [candStep]
  | some x =>
    cases title with
    | none =>
      simp only [candStep]
      by_cases hx : x = ""
      · rw [if_pos hx]
        simp
      · rw [if_neg hx]
        by_cases hm : accessionMatches x = true
        · rw [if_pos hm]
          simp
        · rw [if_neg hm]
          simp
    | some t =>
      simp only [candStep]
      by_cases hx : x = ""
      · subst hx
        rw [if_pos rfl]
        constructor
        · intro h; cases h
        · rintro ⟨hax, hshape, -⟩
          injection hax with hax
          subst hax
          exfalso
          unfold ShapeAtStart at hshape
          obtain ⟨l, d, rest, hdec, -, -, -⟩ := hshape
          exact absurd hdec.symm (by simp)
      · rw [if_neg hx]
        by_cases hm : accessionMatches x = true
        · rw [if_pos hm]
          by_cases hsub : isSubstr (titleTerm term) t = true
          · rw [if_pos hsub]
            constructor
            · intro h
              injection h with h
              subst h
              exact ⟨rfl, (accessionMatches_iff x).1 hm, t, rfl,
                of_decide_eq_true hsub⟩
            · rintro ⟨hax, -, -⟩
              injection hax with hax
              rw [hax]
          · rw [if_neg hsub]
            constructor
            · intro h; cases h
            · rintro ⟨hax, -, t', ht', hsub'⟩
              injection ht' with ht'
              subst ht'
              exact absurd (decide_eq_true hsub') hsub
        · rw [if_neg hm]
          constructor
          · intro h; cases h
          · rintro ⟨hax, hshape, -⟩
            injection hax with hax
            subst hax
            exact absurd ((accessionMatches_iff x).2 hshape) hm

/-- Witness for C2 at the spec's own example: term `WA-PHL-007327`
(no slash) against accession `PQ880188.1` and title
`USA/WA-PHL-007327/2021` validates. -/
theorem C2_candidate_validation_witness :
    candStep "WA-PHL-007327"
        { accessionversion := some "PQ880188.1",
          title := some "USA/WA-PHL-007327/2021" }
      = StepRes.found "PQ880188.1" := by
  apply (C2_candidate_validation
    { accessionversion := some "PQ880188.1",
      title := some "USA/WA-PHL-007327/2021" }
    "WA-PHL-007327" "PQ880188.1").2
  refine ⟨rfl, ?_, "USA/WA-PHL-007327/2021", rfl, ?_⟩
  · exact (accessionMatches_iff "PQ880188.1").1 (by decide)
  · decide

/-- The fully-defaulted parameter set with `max_retries` overridden. -/
def defaultParamsWithRetries (mr : Nat) : Params :=
  { api_key := none, timeout := 15, num_workers := 5,
    max_retries := mr, request_delay := 1/2 }

/-- C7 counterexample: the claim says configuration validation accepts
every `requestDelaySeconds ≥ 0`, in particular 0 — but the pydantic
field is `Field(REQUEST_DELAY, ge=0.001, le=60)`, so a request delay of
0 is rejected. -/
theorem C7_counterexample :
    validateParams { request_delay := some 0 } = none := by
  simp only [validateParams, Option.getD_some, Option.getD_none]
  rw [if_neg]
  intro hc
  have h0 : (1/1000 : ℚ) ≤ 0 := hc.2.2.2.2.1
  norm_num at h0

/-- C7 (amended): configuration validation accepts a
`requestDelaySeconds` value exactly when it lies in [0.001, 60] (so the
value 0 is rejected), and applies the defaults — worker count 5, max
retries 5, request delay 0.5 seconds — when the caller omits those
fields. -/
theorem C7_config_validation (d : ℚ) :
    ((validateParams { request_delay := some d }).isSome
      ↔ (1/1000 : ℚ) ≤ d ∧ d ≤ 60) ∧
    validateParams {} = some (defaultParamsWithRetries 5) := by
  constructor
  · simp only [validateParams, Option.getD_some, Option.getD_none]
    by_cases h : (1/1000 : ℚ) ≤ d ∧ d ≤ 60
    · rw [if_pos ⟨by norm_num, by norm_num, by norm_num, by norm_num,
        h.1, h.2⟩]
      simpa using h
    · rw [if_neg]
      · simpa using h
      · intro hc
        exact h ⟨hc.2.2.2.2.1, hc.2.2.2.2.2⟩
  · simp only [validateParams, Option.getD_some, Option.getD_none]
    rw [if_pos ⟨by norm_num, by norm_num, by norm_num, by norm_num,
      by norm_num, by norm_num⟩]
    rfl

/-- Witness for C7 at `d = 1/2`: the default delay itself is accepted. -/
theorem C7_config_validation_witness :
    ((validateParams { request_delay := some (1/2) }).isSome
      ↔ (1/1000 : ℚ) ≤ (1/2 : ℚ) ∧ (1/2 : ℚ) ≤ 60) ∧
    validateParams {} = some (defaultParamsWithRetries 5) :=
  C7_config_validation (1/2)

/-- A network behaviour answering immediately (no rate limiting) with a
fixed payload after `d` seconds. -/
def okCall {α : Type} (a : α) (d : ℚ) : CallBeh α :=
  { rl := 0, rlDur := fun _ => 0, dur := d, resp := .ok a }

/-- A network behaviour failing immediately at transport level. -/
def errCall {α : Type} (e : FetchErr) (d : ℚ) : CallBeh α :=
  { rl := 0, rlDur := fun _ => 0, dur := d, resp := .error e }

/-! ### Trace classification and symbolic evaluation lemmas -/

lemma backoffs_nil : backoffs [] = [] := rfl

lemma backoffs_append (a b : List Ev) :
    backoffs (a ++ b) = backoffs a ++ backoffs b :=
  List.filterMap_append a b _

lemma summarized_append (a b : List Ev) :
    summarized (a ++ b) = summarized a ++ summarized b :=
  List.filterMap_append a b _

lemma rateSleeps_append (a b : List Ev) :
    rateSleeps (a ++ b) = rateSleeps a ++ rateSleeps b :=
  List.filterMap_append a b _

lemma searchCount_append (a b : List Ev) :
    searchCount (a ++ b) = searchCount a + searchCount b := by
  unfold searchCount
  rw [List.filterMap_append, List.length_append]

lemma backoffs_fetchDataGo {α : Type} (delay : ℚ) :
    ∀ (rl : Nat) (rlDur : Nat → ℚ) (dur : ℚ) (resp : Except FetchErr α)
      (ctr k : Nat),
      backoffs (fetchDataGo delay rl rlDur dur resp ctr k).2 = [] := by
  intro rl
  induction rl with
  | zero =>
    intro rlDur dur resp ctr k
    unfold fetchDataGo
    split
    · rfl
    · cases resp <;> rfl
  | succ n ih =>
    intro rlDur dur resp ctr k
    unfold fetchDataGo
    split
    · rfl
    · simp only [backoffs, List.filterMap_cons]
      exact ih rlDur dur resp (ctr + 1) (k + 1)

lemma summarized_fetchDataGo {α : Type} (delay : ℚ) :
    ∀ (rl : Nat) (rlDur : Nat → ℚ) (dur : ℚ) (resp : Except FetchErr α)
      (ctr k : Nat),
      summarized (fetchDataGo delay rl rlDur dur resp ctr k).2 = [] := by
  intro rl
  induction rl with
  | zero =>
    intro rlDur dur resp ctr k
    unfold fetchDataGo
    split
    · rfl
    · cases resp <;> rfl
  | succ n ih =>
    intro rlDur dur resp ctr k
    unfold fetchDataGo
    split
    · rfl
    · simp only [summarized, List.filterMap_cons]
      exact ih rlDur dur resp (ctr + 1) (k + 1)

lemma searchCount_fetchDataGo {α : Type} (delay : ℚ) :
    ∀ (rl : Nat) (rlDur : Nat → ℚ) (dur : ℚ) (resp : Except FetchErr α)
      (ctr k : Nat),
      searchCount (fetchDataGo delay rl rlDur dur resp ctr k).2 = 0 := by
  intro rl
  induction rl with
  | zero =>
    intro rlDur dur resp ctr k
    unfold fetchDataGo
    split
    · rfl
    · cases resp <;> rfl
  | succ n ih =>
    intro rlDur dur resp ctr k
    unfold fetchDataGo
    split
    · rfl
    · simp only [searchCount, List.filterMap_cons]
      exact ih rlDur dur resp (ctr + 1) (k + 1)

lemma backoffs_runCall {α : Type} (b : CallBeh α) (r : Nat) (delay : ℚ) :
    backoffs (runCall b r delay).2 = [] :=
  backoffs_fetchDataGo delay b.rl b.rlDur b.dur b.resp r 0

lemma summarized_runCall {α : Type} (b : CallBeh α) (r : Nat) (delay : ℚ) :
    summarized (runCall b r delay).2 = [] :=
  summarized_fetchDataGo delay b.rl b.rlDur b.dur b.resp r 0

lemma searchCount_runCall {α : Type} (b : CallBeh α) (r : Nat) (delay : ℚ) :
    searchCount (runCall b r delay).2 = 0 :=
  searchCount_fetchDataGo delay b.rl b.rlDur b.dur b.resp r 0

lemma runCall_okCall {α : Type} (a : α) (d : ℚ) (r : Nat) (delay : ℚ)
    (hd : d ≤ REQUEST_TIMEOUT) :
    runCall (okCall a d) r delay = (.ok a, [.net d, .delay delay]) := by
  unfold runCall okCall fetchDataGo
  rw [if_neg (not_lt.2 hd)]

lemma runCall_errCall {α : Type} (e : FetchErr) (d : ℚ) (r : Nat) (delay : ℚ)
    (hd : d ≤ REQUEST_TIMEOUT) :
    runCall (errCall e d : CallBeh α) r delay = (.error e, [.net d]) := by
  unfold runCall errCall fetchDataGo
  rw [if_neg (not_lt.2 hd)]

lemma elapsed_nil : elapsed [] = 0 := rfl

lemma elapsed_net_delay (d q : ℚ) : elapsed [.net d, .delay q] = d + q := by
  unfold elapsed
  simp

lemma elapsed_net (d : ℚ) : elapsed [.net d] = d := by
  unfold elapsed
  simp

lemma scanIds_error (env : Env) (p : Params) (term : String) (r : Nat)
    (uid : String) (rest : List String) (e : FetchErr)
    (h1 : (runCall (env.summary r uid) r p.request_delay).1 = .error e) :
    scanIds env p term r (uid :: rest)
      = (.transient e,
         Ev.summaryCall r uid :: (runCall (env.summary r uid) r p.request_delay).2) := by
  simp only [scanIds]
  split
  · rename_i e' heq
    rw [h1] at heq
    injection heq with heq
    rw [heq]
  · rename_i s' heq
    rw [h1] at heq
    cases heq

lemma scanIds_ok (env : Env) (p : Params) (term : String) (r : Nat)
    (uid : String) (rest : List String) (s : Summary)
    (h1 : (runCall (env.summary r uid) r p.request_delay).1 = .ok s) :
    scanIds env p term r (uid :: rest)
      = (match candStep term s with
         | .found a =>
           (.done (some a),
            Ev.summaryCall r uid :: (runCall (env.summary r uid) r p.request_delay).2)
         | .bad =>
           (.unexpected,
            Ev.summaryCall r uid :: (runCall (env.summary r uid) r p.request_delay).2)
         | .skip =>
           ((scanIds env p term r rest).1,
            (Ev.summaryCall r uid :: (runCall (env.summary r uid) r p.request_delay).2)
              ++ (scanIds env p term r rest).2)) := by
  simp only [scanIds]
  split
  · rename_i e' heq
    rw [h1] at heq
    cases heq
  · rename_i s' heq
    rw [h1] at heq
    injection heq with heq
    subst heq
    rfl

lemma attempt_of_search_error (env : Env) (p : Params) (term : String)
    (r : Nat) (e : FetchErr)
    (h1 : (runCall (env.search r) r p.request_delay).1 = .error e)
    (h2 : elapsed (runCall (env.search r) r p.request_delay).2 ≤ (p.timeout : ℚ)) :
    attempt env p term r
      = (.transient e, Ev.searchCall r :: (runCall (env.search r) r p.request_delay).2) := by
  simp only [attempt]
  rw [if_neg (not_lt.2 h2)]
  split
  · rename_i e' heq
    rw [h1] at heq
    injection heq with heq
    rw [heq]
  · rename_i ids heq
    rw [h1] at heq
    cases heq

lemma attempt_of_search_timeout (env : Env) (p : Params) (term : String)
    (r : Nat)
    (h2 : (p.timeout : ℚ) < elapsed (runCall (env.search r) r p.request_delay).2) :
    attempt env p term r
      = (.transient .timeout,
         Ev.searchCall r :: (runCall (env.search r) r p.request_delay).2) := by
  simp only [attempt]
  rw [if_pos h2]

lemma attempt_of_search_empty (env : Env) (p : Params) (term : String)
    (r : Nat)
    (h1 : (runCall (env.search r) r p.request_delay).1 = .ok [])
    (h2 : elapsed (runCall (env.search r) r p.request_delay).2 ≤ (p.timeout : ℚ)) :
    attempt env p term r
      = (.done none, Ev.searchCall r :: (runCall (env.search r) r p.request_delay).2) := by
  simp only [attempt]
  rw [if_neg (not_lt.2 h2)]
  split
  · rename_i e' heq
    rw [h1] at heq
    cases heq
  · rename_i ids heq
    rw [h1] at heq
    injection heq with heq
    subst heq
    rfl

lemma attempt_of_search_ids (env : Env) (p : Params) (term : String)
    (r : Nat) (u : String) (us : List String)
    (h1 : (runCall (env.search r) r p.request_delay).1 = .ok (u :: us))
    (h2 : elapsed (runCall (env.search r) r p.request_delay).2 ≤ (p.timeout : ℚ)) :
    attempt env p term r
      = ((scanIds env p term r
            (if (u :: us).length > 10 then (u :: us).take 10 else u :: us)).1,
         (Ev.searchCall r :: (runCall (env.search r) r p.request_delay).2)
           ++ (scanIds env p term r
                (if (u :: us).length > 10 then (u :: us).take 10 else u :: us)).2) := by
  simp only [attempt]
  rw [if_neg (not_lt.2 h2)]
  split
  · rename_i e' heq
    rw [h1] at heq
    cases heq
  · rename_i ids heq
    rw [h1] at heq
    injection heq with heq
    subst heq
    rfl

lemma backoffs_cons_searchCall (r : Nat) (tr : List Ev) :
    backoffs (.searchCall r :: tr) = backoffs tr := rfl

lemma backoffs_cons_summaryCall (r : Nat) (uid : String) (tr : List Ev) :
    backoffs (.summaryCall r uid :: tr) = backoffs tr := rfl

lemma backoffs_cons_backoffSleep (d : ℚ) (tr : List Ev) :
    backoffs (.backoffSleep d :: tr) = d :: backoffs tr := rfl

lemma summarized_cons_searchCall (r : Nat) (tr : List Ev) :
    summarized (.searchCall r :: tr) = summarized tr := rfl

lemma summarized_cons_summaryCall (r : Nat) (uid : String) (tr : List Ev) :
    summarized (.summaryCall r uid :: tr) = uid :: summarized tr := rfl

lemma summarized_cons_backoffSleep (d : ℚ) (tr : List Ev) :
    summarized (.backoffSleep d :: tr) = summarized tr := rfl

lemma searchCount_cons_searchCall (r : Nat) (tr : List Ev) :
    searchCount (.searchCall r :: tr) = searchCount tr + 1 := rfl

lemma searchCount_cons_summaryCall (r : Nat) (uid : String) (tr : List Ev) :
    searchCount (.summaryCall r uid :: tr) = searchCount tr := rfl

lemma searchCount_cons_backoffSleep (d : ℚ) (tr : List Ev) :
    searchCount (.backoffSleep d :: tr) = searchCount tr := rfl

lemma rateSleeps_cons_searchCall (r : Nat) (tr : List Ev) :
    rateSleeps (.searchCall r :: tr) = rateSleeps tr := rfl

/-- The scan of an id list only issues summary calls: its trace holds no
backoff sleep and no search call. -/
lemma backoffs_scanIds (env : Env) (p : Params) (term : String) (r : Nat) :
    ∀ l : List String, backoffs (scanIds env p term r l).2 = [] := by
  intro l
  induction l with
  | nil => rfl
  | cons uid rest ih =>
    simp only [scanIds]
    split
    · rw [backoffs_cons_summaryCall, backoffs_runCall]
    · split
      · rw [backoffs_cons_summaryCall, backoffs_runCall]
      · rw [backoffs_cons_summaryCall, backoffs_runCall]
      · rw [List.cons_append, backoffs_cons_summaryCall, backoffs_append,
          backoffs_runCall, List.nil_append, ih]

lemma searchCount_scanIds (env : Env) (p : Params) (term : String) (r : Nat) :
    ∀ l : List String, searchCount (scanIds env p term r l).2 = 0 := by
  intro l
  induction l with
  | nil => rfl
  | cons uid rest ih =>
    simp only [scanIds]
    split
    · rw [searchCount_cons_summaryCall, searchCount_runCall]
    · split
      · rw [searchCount_cons_summaryCall, searchCount_runCall]
      · rw [searchCount_cons_summaryCall, searchCount_runCall]
      · rw [List.cons_append, searchCount_cons_summaryCall, searchCount_append,
          searchCount_runCall, ih]

/-- Every attempt's trace holds no backoff sleep (the backoff is added by
the retry loop, not inside the attempt). -/
lemma backoffs_attempt (env : Env) (p : Params) (term : String) (r : Nat) :
    backoffs (attempt env p term r).2 = [] := by
  simp only [attempt]
  split
  · rw [backoffs_cons_searchCall, backoffs_runCall]
  · split
    · rw [backoffs_cons_searchCall, backoffs_runCall]
    · split
      · rw [backoffs_cons_searchCall, backoffs_runCall]
      · rw [List.cons_append, backoffs_cons_searchCall, backoffs_append,
          backoffs_runCall, List.nil_append, backoffs_scanIds]

/-- Every attempt's trace holds exactly one search call. -/
lemma searchCount_attempt (env : Env) (p : Params) (term : String) (r : Nat) :
    searchCount (attempt env p term r).2 = 1 := by
  simp only [attempt]
  split
  · rw [searchCount_cons_searchCall, searchCount_runCall]
  · split
    · rw [searchCount_cons_searchCall, searchCount_runCall]
    · split
      · rw [searchCount_cons_searchCall, searchCount_runCall]
      · rw [List.cons_append, searchCount_cons_searchCall, searchCount_append,
          searchCount_runCall, searchCount_scanIds]

lemma fetchLoop_zero (env : Env) (p : Params) (term : String) (r : Nat) :
    fetchLoop env p term r 0 = (none, []) := rfl

lemma fetchLoop_done (env : Env) (p : Params) (term : String)
    (r fuel : Nat) (acc : Option String)
    (h : (attempt env p term r).1 = .done acc) :
    fetchLoop env p term r (fuel + 1) = (acc, (attempt env p term r).2) := by
  simp only [fetchLoop]
  split
  · rename_i acc' heq
    rw [h] at heq
    injection heq with heq
    rw [heq]
  · rename_i heq
    rw [h] at heq
    cases heq
  · rename_i e' heq
    rw [h] at heq
    cases heq

lemma fetchLoop_unexpected (env : Env) (p : Params) (term : String)
    (r fuel : Nat)
    (h : (attempt env p term r).1 = .unexpected) :
    fetchLoop env p term r (fuel + 1) = (none, (attempt env p term r).2) := by
  simp only [fetchLoop]
  split
  · rename_i acc' heq
    rw [h] at heq
    cases heq
  · rfl
  · rename_i e' heq
    rw [h] at heq
    cases heq

lemma fetchLoop_transient (env : Env) (p : Params) (term : String)
    (r fuel : Nat) (e : FetchErr)
    (h : (attempt env p term r).1 = .transient e) :
    fetchLoop env p term r (fuel + 1)
      = ((fetchLoop env p term (r + 1) fuel).1,
         (attempt env p term r).2
           ++ Ev.backoffSleep (min (1 + 2 ^ r) 10)
             :: (fetchLoop env p term (r + 1) fuel).2) := by
  simp only [fetchLoop]
  split
  · rename_i acc' heq
    rw [h] at heq
    cases heq
  · rename_i heq
    rw [h] at heq
    cases heq
  · rfl

/-- Truncation in the resolver: the scanned list is always the first 10
ids (the `if len(id_list) > 10` slice is the identity when the list is
short). -/
lemma ids_truncate (ids : List String) :
    (if ids.length > 10 then ids.take 10 else ids) = ids.take 10 := by
  by_cases h : ids.length > 10
  · rw [if_pos h]
  · rw [if_neg h]
    exact (List.take_of_length_le (by omega)).symm

/-- The ids summarized by the scan form an initial segment of the scanned
list: candidates are tried in list order and skipped only by moving on. -/
lemma summarized_scanIds_prefix (env : Env) (p : Params) (term : String)
    (r : Nat) :
    ∀ l : List String, summarized (scanIds env p term r l).2 <+: l := by
  intro l
  induction l with
  | nil => exact List.nil_prefix
  | cons uid rest ih =>
    simp only [scanIds]
    split
    · rw [summarized_cons_summaryCall, summarized_runCall]
      exact ⟨rest, rfl⟩
    · split
      · rw [summarized_cons_summaryCall, summarized_runCall]
        exact ⟨rest, rfl⟩
      · rw [summarized_cons_summaryCall, summarized_runCall]
        exact ⟨rest, rfl⟩
      · rw [List.cons_append, summarized_cons_summaryCall, summarized_append,
          summarized_runCall, List.nil_append]
        obtain ⟨t, ht⟩ := ih
        exact ⟨t, by rw [List.cons_append, ht]⟩

lemma take10_three (A B C : String) : [A, B, C].take 10 = [A, B, C] := rfl

/-- C3: one resolution attempt follows the resolver algorithm: an empty
search result yields null immediately with no backoff and no summary
call; the id list is truncated to its first 10 ids and summarized in
list order (the summarized ids always form an initial segment of the
first 10 ids); and for a search returning [A, B, C] where A's summary is
skipped and B's validates, the outcome is B's accession and C is never
summarized (the conclusion holds for every environment regardless of its
behaviour on C). -/
theorem C3_attempt_resolution (env : Env) (p : Params) (term : String) :
    ((runCall (env.search 0) 0 p.request_delay).1 = .ok [] →
     elapsed (runCall (env.search 0) 0 p.request_delay).2 ≤ (p.timeout : ℚ) →
     0 < p.max_retries →
     (fetchNuccore env p term).1 = none ∧
     backoffs (fetchNuccore env p term).2 = [] ∧
     summarized (fetchNuccore env p term).2 = []) ∧
    (∀ (r : Nat) (ids : List String),
      (runCall (env.search r) r p.request_delay).1 = .ok ids →
      summarized (attempt env p term r).2 <+: ids.take 10) ∧
    (∀ (A B C accB : String) (sA sB : Summary),
      (runCall (env.search 0) 0 p.request_delay).1 = .ok [A, B, C] →
      elapsed (runCall (env.search 0) 0 p.request_delay).2 ≤ (p.timeout : ℚ) →
      (runCall (env.summary 0 A) 0 p.request_delay).1 = .ok sA →
      candStep term sA = .skip →
      (runCall (env.summary 0 B) 0 p.request_delay).1 = .ok sB →
      candStep term sB = .found accB →
      0 < p.max_retries →
      (fetchNuccore env p term).1 = some accB ∧
      summarized (fetchNuccore env p term).2 = [A, B]) := by
  refine ⟨?_, ?_, ?_⟩
  · intro h1 h2 hmr
    obtain ⟨n, hn⟩ : ∃ n, p.max_retries = n + 1 := ⟨p.max_retries - 1, by omega⟩
    have ha := attempt_of_search_empty env p term 0 h1 h2
    unfold fetchNuccore
    rw [hn, fetchLoop_done env p term 0 n none (by rw [ha])]
    refine ⟨rfl, ?_, ?_⟩
    · simp only [ha, backoffs_cons_searchCall, backoffs_runCall]
    · simp only [ha, summarized_cons_searchCall, summarized_runCall]
  · intro r ids h1
    by_cases hto : (p.timeout : ℚ) < elapsed (runCall (env.search r) r p.request_delay).2
    · rw [attempt_of_search_timeout env p term r hto]
      simp only [summarized_cons_searchCall, summarized_runCall]
      exact List.nil_prefix
    · have hle := not_lt.1 hto
      cases ids with
      | nil =>
        rw [attempt_of_search_empty env p term r h1 hle]
        simp only [summarized_cons_searchCall, summarized_runCall]
        exact List.nil_prefix
      | cons u us =>
        rw [attempt_of_search_ids env p term r u us h1 hle, ids_truncate]
        simp only [summarized_append, summarized_cons_searchCall,
          summarized_runCall, List.nil_append]
        exact summarized_scanIds_prefix env p term r _
  · intro A B C accB sA sB h1 h2 hA hcA hB hcB hmr
    obtain ⟨n, hn⟩ : ∃ n, p.max_retries = n + 1 := ⟨p.max_retries - 1, by omega⟩
    have hscanB : scanIds env p term 0 [B, C]
        = (.done (some accB),
           Ev.summaryCall 0 B :: (runCall (env.summary 0 B) 0 p.request_delay).2) := by
      rw [scanIds_ok env p term 0 B [C] sB hB, hcB]
    have hscanA : scanIds env p term 0 [A, B, C]
        = ((scanIds env p term 0 [B, C]).1,
           (Ev.summaryCall 0 A :: (runCall (env.summary 0 A) 0 p.request_delay).2)
             ++ (scanIds env p term 0 [B, C]).2) := by
      rw [scanIds_ok env p term 0 A [B, C] sA hA, hcA]
    have hattempt : attempt env p term 0
        = (.done (some accB),
           (Ev.searchCall 0 :: (runCall (env.search 0) 0 p.request_delay).2)
             ++ ((Ev.summaryCall 0 A :: (runCall (env.summary 0 A) 0 p.request_delay).2)
               ++ (Ev.summaryCall 0 B :: (runCall (env.summary 0 B) 0 p.request_delay).2))) := by
      rw [attempt_of_search_ids env p term 0 A [B, C] h1 h2, ids_truncate,
        take10_three, hscanA, hscanB]
    unfold fetchNuccore
    rw [hn, fetchLoop_done env p term 0 n (some accB) (by rw [hattempt])]
    refine ⟨rfl, ?_⟩
    simp only [hattempt, summarized_append, summarized_cons_searchCall,
      summarized_cons_summaryCall, summarized_runCall, List.nil_append,
      List.cons_append]

/-- A summary record that the validator skips (no accession at all). -/
def sSkip : Summary := { accessionversion := none, title := none }

/-- A summary record that validates for the term `X`. -/
def sFound : Summary :=
  { accessionversion := some "PQ880188.1", title := some "/X/" }

/-- Environment for the C3 witness: the search returns ids A, B, C and
only B's summary validates. -/
def env3 : Env :=
  { search := fun _ => okCall ["A", "B", "C"] 1,
    summary := fun _ uid =>
      if uid = "B" then okCall sFound 1 else okCall sSkip 1 }

/-- Environment whose search always returns an empty id list. -/
def envEmptySearch : Env :=
  { search := fun _ => okCall [] 1,
    summary := fun _ _ => okCall sSkip 1 }

/-- Witness for C3: with the default parameters, an empty search yields
null with no backoff and no summaries, and the [A, B, C]-with-only-B
scenario yields B's accession having summarized exactly A and B. -/
theorem C3_attempt_resolution_witness :
    ((fetchNuccore envEmptySearch (defaultParamsWithRetries 5) "X").1 = none ∧
     backoffs (fetchNuccore envEmptySearch (defaultParamsWithRetries 5) "X").2 = [] ∧
     summarized (fetchNuccore envEmptySearch (defaultParamsWithRetries 5) "X").2 = []) ∧
    ((fetchNuccore env3 (defaultParamsWithRetries 5) "X").1 = some "PQ880188.1" ∧
     summarized (fetchNuccore env3 (defaultParamsWithRetries 5) "X").2 = ["A", "B"]) := by
  constructor
  · refine (C3_attempt_resolution envEmptySearch (defaultParamsWithRetries 5) "X").1 ?_ ?_ ?_
    · rw [show envEmptySearch.search 0 = okCall [] 1 from rfl,
        runCall_okCall _ _ _ _ (by norm_num [REQUEST_TIMEOUT])]
    · rw [show envEmptySearch.search 0 = okCall [] 1 from rfl,
        runCall_okCall _ _ _ _ (by norm_num [REQUEST_TIMEOUT]),
        elapsed_net_delay]
      norm_num [defaultParamsWithRetries]
    · norm_num [defaultParamsWithRetries]
  · exact (C3_attempt_resolution env3 (defaultParamsWithRetries 5) "X").2.2
      "A" "B" "C" "PQ880188.1" sSkip sFound
      (by rw [show env3.search 0 = okCall ["A", "B", "C"] 1 from rfl,
        runCall_okCall _ _ _ _ (by norm_num [REQUEST_TIMEOUT])])
      (by rw [show env3.search 0 = okCall ["A", "B", "C"] 1 from rfl,
        runCall_okCall _ _ _ _ (by norm_num [REQUEST_TIMEOUT]), elapsed_net_delay]
          norm_num [defaultParamsWithRetries])
      (by rw [show env3.summary 0 "A" = okCall sSkip 1 from rfl,
        runCall_okCall _ _ _ _ (by norm_num [REQUEST_TIMEOUT])])
      (by decide)
      (by rw [show env3.summary 0 "B" = okCall sFound 1 from rfl,
        runCall_okCall _ _ _ _ (by norm_num [REQUEST_TIMEOUT])])
      (by decide)
      (by norm_num [defaultParamsWithRetries])

/-- If every attempt from `r` for `fuel` rounds fails transiently, the
loop exhausts its budget: result `none`, one backoff sleep of
`min(1 + 2^k, 10)` per failed attempt `k`, one search per attempt. -/
lemma fetchLoop_all_transient (env : Env) (p : Params) (term : String)
    (e : Nat → FetchErr) :
    ∀ (fuel r : Nat),
      (∀ k, r ≤ k → k < r + fuel → (attempt env p term k).1 = .transient (e k)) →
      (fetchLoop env p term r fuel).1 = none ∧
      backoffs (fetchLoop env p term r fuel).2
        = (List.range' r fuel).map (fun k => min (1 + 2 ^ k) (10 : ℚ)) ∧
      searchCount (fetchLoop env p term r fuel).2 = fuel := by
  intro fuel
  induction fuel with
  | zero =>
    intro r h
    exact ⟨rfl, rfl, rfl⟩
  | succ n ih =>
    intro r h
    have ha : (attempt env p term r).1 = .transient (e r) :=
      h r le_rfl (by omega)
    rw [fetchLoop_transient env p term r n (e r) ha]
    have ih' := ih (r + 1) (fun k hk1 hk2 => h k (by omega) (by omega))
    refine ⟨ih'.1, ?_, ?_⟩
    · rw [backoffs_append, backoffs_attempt, List.nil_append,
        backoffs_cons_backoffSleep, ih'.2.1, List.range'_succ, List.map_cons]
    · rw [searchCount_append, searchCount_attempt,
        searchCount_cons_backoffSleep, ih'.2.2]
      omega

/-- C4: on a transient failure of attempt `k` (zero-based) the controller
sleeps `min(1 + 2^k, 10)` seconds and retries; at most `max_retries`
attempts run in total; a term whose every attempt fails transiently
yields `none` (not an error) after exactly `max_retries` attempts; and a
term failing transport on attempts 0 and 1 and succeeding on attempt 2,
with `max_retries ≥ 3`, yields the successful accession after backoffs
`min(1+2^0,10)` and `min(1+2^1,10)`. -/
theorem C4_retry_backoff (env : Env) (p : Params) (term : String)
    (e : Nat → FetchErr) (a : String) :
    ((∀ r, r < p.max_retries → (attempt env p term r).1 = .transient (e r)) →
      (fetchNuccore env p term).1 = none ∧
      backoffs (fetchNuccore env p term).2
        = (List.range p.max_retries).map (fun k => min (1 + 2 ^ k) (10 : ℚ)) ∧
      searchCount (fetchNuccore env p term).2 = p.max_retries) ∧
    ((attempt env p term 0).1 = .transient (e 0) →
     (attempt env p term 1).1 = .transient (e 1) →
     (attempt env p term 2).1 = .done (some a) →
     3 ≤ p.max_retries →
     (fetchNuccore env p term).1 = some a ∧
     backoffs (fetchNuccore env p term).2
       = [min (1 + 2 ^ 0) (10 : ℚ), min (1 + 2 ^ 1) (10 : ℚ)]) := by
  constructor
  · intro h
    have hall := fetchLoop_all_transient env p term e p.max_retries 0
      (fun k _ hk2 => h k (by omega))
    unfold fetchNuccore
    refine ⟨hall.1, ?_, hall.2.2⟩
    rw [List.range_eq_range']
    exact hall.2.1
  · intro h0 h1 h2 h3
    obtain ⟨m, hm⟩ : ∃ m, p.max_retries = (m + 2) + 1 :=
      ⟨p.max_retries - 3, by omega⟩
    unfold fetchNuccore
    rw [hm, fetchLoop_transient env p term 0 (m + 2) (e 0) h0,
      show (0 : Nat) + 1 = 1 from rfl,
      show m + 2 = (m + 1) + 1 from rfl,
      fetchLoop_transient env p term 1 (m + 1) (e 1) h1,
      show (1 : Nat) + 1 = 2 from rfl,
      fetchLoop_done env p term 2 m (some a) h2]
    refine ⟨rfl, ?_⟩
    simp only [backoffs_append, backoffs_attempt, List.nil_append,
      backoffs_cons_backoffSleep]

/-- Environment whose search fails transport on retries 0 and 1 and
returns the single id B from retry 2 on. -/
def envFailTwice : Env :=
  { search := fun r => if r ≥ 2 then okCall ["B"] 1 else errCall .transport 1,
    summary := fun _ _ => okCall sFound 1 }

/-- Environment whose search always fails at transport level. -/
def envAllFail : Env :=
  { search := fun _ => errCall .transport 1,
    summary := fun _ _ => okCall sSkip 1 }

lemma take10_one (B : String) : [B].take 10 = [B] := rfl

/-- Witness for C4: with the default parameters every-attempt transport
failure yields null after 5 attempts and 5 backoffs; and with
`max_retries = 3`, failing on attempts 0 and 1 and succeeding on attempt
2 yields the accession after backoffs of 2 and 3 seconds. -/
theorem C4_retry_backoff_witness :
    ((fetchNuccore envAllFail (defaultParamsWithRetries 5) "X").1 = none ∧
     backoffs (fetchNuccore envAllFail (defaultParamsWithRetries 5) "X").2
       = (List.range 5).map (fun k => min (1 + 2 ^ k) (10 : ℚ)) ∧
     searchCount (fetchNuccore envAllFail (defaultParamsWithRetries 5) "X").2
       = 5) ∧
    ((fetchNuccore envFailTwice (defaultParamsWithRetries 3) "X").1
       = some "PQ880188.1" ∧
     backoffs (fetchNuccore envFailTwice (defaultParamsWithRetries 3) "X").2
       = [min (1 + 2 ^ 0) (10 : ℚ), min (1 + 2 ^ 1) (10 : ℚ)]) := by
  constructor
  · have hsu : ∀ r : Nat,
        runCall (envAllFail.search r) r (defaultParamsWithRetries 5).request_delay
          = (.error .transport, [.net 1]) := by
      intro r
      rw [show envAllFail.search r = errCall .transport 1 from rfl,
        runCall_errCall _ _ _ _ (by norm_num [REQUEST_TIMEOUT])]
    have hatt : ∀ r, r < (defaultParamsWithRetries 5).max_retries →
        (attempt envAllFail (defaultParamsWithRetries 5) "X" r).1
          = .transient ((fun _ => FetchErr.transport) r) := by
      intro r _
      have hel : elapsed (runCall (envAllFail.search r) r
            (defaultParamsWithRetries 5).request_delay).2
          ≤ ((defaultParamsWithRetries 5).timeout : ℚ) := by
        rw [hsu r, elapsed_net]
        norm_num [defaultParamsWithRetries]
      rw [attempt_of_search_error envAllFail (defaultParamsWithRetries 5) "X"
        r .transport (by rw [hsu r]) hel]
    exact (C4_retry_backoff envAllFail (defaultParamsWithRetries 5) "X"
      (fun _ => .transport) "PQ880188.1").1 hatt
  · have hrw0 : runCall (envFailTwice.search 0) 0
        (defaultParamsWithRetries 3).request_delay
          = (.error .transport, [.net 1]) := by
      rw [show envFailTwice.search 0 = errCall .transport 1 from rfl,
        runCall_errCall _ _ _ _ (by norm_num [REQUEST_TIMEOUT])]
    have hrw1 : runCall (envFailTwice.search 1) 1
        (defaultParamsWithRetries 3).request_delay
          = (.error .transport, [.net 1]) := by
      rw [show envFailTwice.search 1 = errCall .transport 1 from rfl,
        runCall_errCall _ _ _ _ (by norm_num [REQUEST_TIMEOUT])]
    have hrw2 : runCall (envFailTwice.search 2) 2
        (defaultParamsWithRetries 3).request_delay
          = (.ok ["B"], [.net 1, .delay (defaultParamsWithRetries 3).request_delay]) := by
      rw [show envFailTwice.search 2 = okCall ["B"] 1 from rfl,
        runCall_okCall _ _ _ _ (by norm_num [REQUEST_TIMEOUT])]
    have hrwB : runCall (envFailTwice.summary 2 "B") 2
        (defaultParamsWithRetries 3).request_delay
          = (.ok sFound, [.net 1, .delay (defaultParamsWithRetries 3).request_delay]) := by
      rw [show envFailTwice.summary 2 "B" = okCall sFound 1 from rfl,
        runCall_okCall _ _ _ _ (by norm_num [REQUEST_TIMEOUT])]
    have hel0 : elapsed (runCall (envFailTwice.search 0) 0
          (defaultParamsWithRetries 3).request_delay).2
        ≤ ((defaultParamsWithRetries 3).timeout : ℚ) := by
      rw [hrw0, elapsed_net]
      norm_num [defaultParamsWithRetries]
    have hel1 : elapsed (runCall (envFailTwice.search 1) 1
          (defaultParamsWithRetries 3).request_delay).2
        ≤ ((defaultParamsWithRetries 3).timeout : ℚ) := by
      rw [hrw1, elapsed_net]
      norm_num [defaultParamsWithRetries]
    have hel2 : elapsed (runCall (envFailTwice.search 2) 2
          (defaultParamsWithRetries 3).request_delay).2
        ≤ ((defaultParamsWithRetries 3).timeout : ℚ) := by
      rw [hrw2, elapsed_net_delay]
      norm_num [defaultParamsWithRetries]
    have hatt2 : (attempt envFailTwice (defaultParamsWithRetries 3) "X" 2).1
        = .done (some "PQ880188.1") := by
      rw [attempt_of_search_ids envFailTwice (defaultParamsWithRetries 3) "X"
          2 "B" [] (by rw [hrw2]) hel2,
        ids_truncate, take10_one,
        scanIds_ok envFailTwice (defaultParamsWithRetries 3) "X" 2 "B" [] sFound
          (by rw [hrwB]),
        show candStep "X" sFound = .found "PQ880188.1" from by decide]
    exact (C4_retry_backoff envFailTwice (defaultParamsWithRetries 3) "X"
      (fun _ => .transport) "PQ880188.1").2
      (by rw [attempt_of_search_error envFailTwice (defaultParamsWithRetries 3)
        "X" 0 .transport (by rw [hrw0]) hel0])
      (by rw [attempt_of_search_error envFailTwice (defaultParamsWithRetries 3)
        "X" 1 .transport (by rw [hrw1]) hel1])
      hatt2
      (by norm_num [defaultParamsWithRetries])

/-- A candidate whose accession is present, non-empty and matches the
pattern, but whose title is absent, hits the `TypeError` path. -/
lemma candStep_bad_of (term : String) (s : Summary) (a : String)
    (hacc : s.accessionversion = some a) (hne : a ≠ "")
    (hm : accessionMatches a = true) (hti : s.title = none) :
    candStep term s = .bad := by
  obtain ⟨acc, title⟩ := s
  simp only at hacc hti
  subst hacc
  subst hti
  simp only [candStep]
  rw [if_neg hne, if_pos hm]

/-- Scanning a block of candidates that are all skipped just passes
through: same outcome as scanning the remainder, with the skipped ids
prepended to the summarized list. -/
lemma scanIds_skip_prefix (env : Env) (p : Params) (term : String) (r : Nat) :
    ∀ (pre post : List String),
      (∀ u ∈ pre, ∃ su,
        (runCall (env.summary r u) r p.request_delay).1 = .ok su ∧
        candStep term su = .skip) →
      (scanIds env p term r (pre ++ post)).1 = (scanIds env p term r post).1 ∧
      summarized (scanIds env p term r (pre ++ post)).2
        = pre ++ summarized (scanIds env p term r post).2 ∧
      backoffs (scanIds env p term r (pre ++ post)).2
        = backoffs (scanIds env p term r post).2 := by
  intro pre
  induction pre with
  | nil =>
    intro post _
    exact ⟨rfl, rfl, rfl⟩
  | cons u us ih =>
    intro post h
    obtain ⟨su, hsu, hcs⟩ := h u (List.mem_cons_self u us)
    have ih' := ih post (fun v hv => h v (List.mem_cons_of_mem _ hv))
    have hstep : scanIds env p term r (u :: (us ++ post))
        = ((scanIds env p term r (us ++ post)).1,
           (Ev.summaryCall r u :: (runCall (env.summary r u) r p.request_delay).2)
             ++ (scanIds env p term r (us ++ post)).2) := by
      rw [scanIds_ok env p term r u (us ++ post) su hsu, hcs]
    refine ⟨?_, ?_, ?_⟩
    · rw [List.cons_append, hstep]
      exact ih'.1
    · rw [List.cons_append]
      simp only [hstep, summarized_append, summarized_cons_summaryCall,
        summarized_runCall, List.nil_append, ih'.2.1]
      simp
    · rw [List.cons_append]
      simp only [hstep, backoffs_append, backoffs_cons_summaryCall,
        backoffs_runCall, List.nil_append, ih'.2.2]

/-- C9: if an enumerated candidate's summary carries an accession that
satisfies the pattern but no title, the term's resolution terminates
immediately with a null outcome through the unexpected-error path: no
backoff/retry happens and the ids after that candidate are never
summarized (the conclusion holds for every environment regardless of its
behaviour on the remaining ids). -/
theorem C9_missing_title_aborts (env : Env) (p : Params) (term : String)
    (ids pre rest : List String) (uid : String) (s : Summary) (a : String)
    (hmr : 0 < p.max_retries)
    (hs : (runCall (env.search 0) 0 p.request_delay).1 = .ok ids)
    (hel : elapsed (runCall (env.search 0) 0 p.request_delay).2 ≤ (p.timeout : ℚ))
    (hids : ids.take 10 = pre ++ uid :: rest)
    (hpre : ∀ u ∈ pre, ∃ su,
      (runCall (env.summary 0 u) 0 p.request_delay).1 = .ok su ∧
      candStep term su = .skip)
    (hsum : (runCall (env.summary 0 uid) 0 p.request_delay).1 = .ok s)
    (hacc : s.accessionversion = some a) (hne : a ≠ "")
    (hm : accessionMatches a = true) (hti : s.title = none) :
    (fetchNuccore env p term).1 = none ∧
    backoffs (fetchNuccore env p term).2 = [] ∧
    summarized (fetchNuccore env p term).2 = pre ++ [uid] := by
  obtain ⟨n, hn⟩ : ∃ n, p.max_retries = n + 1 := ⟨p.max_retries - 1, by omega⟩
  have hbad : candStep term s = .bad := candStep_bad_of term s a hacc hne hm hti
  have hstepU : scanIds env p term 0 (uid :: rest)
      = (.unexpected,
         Ev.summaryCall 0 uid :: (runCall (env.summary 0 uid) 0 p.request_delay).2) := by
    rw [scanIds_ok env p term 0 uid rest s hsum, hbad]
  have hskip := scanIds_skip_prefix env p term 0 pre (uid :: rest) hpre
  cases hids' : ids with
  | nil =>
    rw [hids'] at hids
    exact absurd hids.symm (by simp)
  | cons u us =>
    rw [hids'] at hs hids
    have hatt := attempt_of_search_ids env p term 0 u us hs hel
    rw [ids_truncate, hids] at hatt
    have hattempt1 : (attempt env p term 0).1 = .unexpected := by
      rw [hatt]
      show (scanIds env p term 0 (pre ++ uid :: rest)).1 = .unexpected
      rw [hskip.1, hstepU]
    unfold fetchNuccore
    rw [hn, fetchLoop_unexpected env p term 0 n hattempt1]
    refine ⟨rfl, ?_, ?_⟩
    · simp only [hatt, backoffs_append, backoffs_cons_searchCall,
        backoffs_runCall, List.nil_append, hskip.2.2, hstepU,
        backoffs_cons_summaryCall]
    · simp only [hatt, summarized_append, summarized_cons_searchCall,
        summarized_runCall, List.nil_append, hskip.2.1, hstepU,
        summarized_cons_summaryCall]

/-- A summary with a matching accession and no title at all. -/
def sBad : Summary := { accessionversion := some "PQ880188.1", title := none }

/-- Environment for the C9 witness: search gives A, B, C; A is skipped,
B has a pattern-matching accession but no title, C would validate. -/
def env9 : Env :=
  { search := fun _ => okCall ["A", "B", "C"] 1,
    summary := fun _ uid =>
      if uid = "B" then okCall sBad 1
      else if uid = "C" then okCall sFound 1
      else okCall sSkip 1 }

/-- Witness for C9: in `env9` the term resolves to null having
summarized only A and B — C, which would have validated, is never
reached, and no backoff happens. -/
theorem C9_missing_title_aborts_witness :
    (fetchNuccore env9 (defaultParamsWithRetries 5) "X").1 = none ∧
    backoffs (fetchNuccore env9 (defaultParamsWithRetries 5) "X").2 = [] ∧
    summarized (fetchNuccore env9 (defaultParamsWithRetries 5) "X").2
      = ["A"] ++ ["B"] := by
  have hsearch : runCall (env9.search 0) 0
      (defaultParamsWithRetries 5).request_delay
      = (.ok ["A", "B", "C"],
         [.net 1, .delay (defaultParamsWithRetries 5).request_delay]) := by
    rw [show env9.search 0 = okCall ["A", "B", "C"] 1 from rfl,
      runCall_okCall _ _ _ _ (by norm_num [REQUEST_TIMEOUT])]
  have hel : elapsed (runCall (env9.search 0) 0
        (defaultParamsWithRetries 5).request_delay).2
      ≤ ((defaultParamsWithRetries 5).timeout : ℚ) := by
    rw [hsearch, elapsed_net_delay]
    norm_num [defaultParamsWithRetries]
  refine C9_missing_title_aborts env9 (defaultParamsWithRetries 5) "X"
    ["A", "B", "C"] ["A"] ["C"] "B" sBad "PQ880188.1"
    (by norm_num [defaultParamsWithRetries])
    (by rw [hsearch]) hel (by decide) ?_ ?_ rfl (by decide) (by decide) rfl
  · intro u hu
    have hu' : u = "A" := by simpa using hu
    subst hu'
    refine ⟨sSkip, ?_, by decide⟩
    rw [show env9.summary 0 "A" = okCall sSkip 1 from rfl,
      runCall_okCall _ _ _ _ (by norm_num [REQUEST_TIMEOUT])]
  · rw [show env9.summary 0 "B" = okCall sBad 1 from rfl,
      runCall_okCall _ _ _ _ (by norm_num [REQUEST_TIMEOUT])]

/-- C10: with `max_retries = 0` — a value configuration validation
accepts — the retry loop body never runs: every term resolves to null
with an empty event trace (no search or summary request is issued), and
the batch maps every input term to null. -/
theorem C10_zero_retries (tenv : String → Env) (p : Params)
    (ts : List String) (term : String) (h : p.max_retries = 0) :
    fetchNuccore (tenv term) p term = (none, []) ∧
    (term ∈ ts → dictLookup (fetchAllNuccore tenv p ts) term = some none) ∧
    validateParams { max_retries := some 0 }
      = some (defaultParamsWithRetries 0) := by
  have hz : ∀ t : String, fetchNuccore (tenv t) p t = (none, []) := by
    intro t
    unfold fetchNuccore
    rw [h]
    exact fetchLoop_zero (tenv t) p t 0
  refine ⟨hz term, ?_, ?_⟩
  · intro hmem
    have hl : dictLookup (fetchAllNuccore tenv p ts) term
        = some ((fetchNuccore (tenv term) p term).1) :=
      foldIns_lookup_mem (fun u => (fetchNuccore (tenv u) p u).1) ts [] term hmem
    rw [hz term] at hl
    exact hl
  · simp only [validateParams, Option.getD_some, Option.getD_none]
    rw [if_pos ⟨by norm_num, by norm_num, by norm_num, by norm_num,
      by norm_num, by norm_num⟩]
    rfl

/-- Witness for C10 in an environment that would return results if it
were ever queried: with `max_retries = 0` the term still resolves to
null with an empty trace, and the batch result maps it to null. -/
theorem C10_zero_retries_witness :
    fetchNuccore env3 (defaultParamsWithRetries 0) "a" = (none, []) ∧
    dictLookup (fetchAllNuccore (fun _ => env3) (defaultParamsWithRetries 0)
      ["a", "b"]) "a" = some none ∧
    validateParams { max_retries := some 0 }
      = some (defaultParamsWithRetries 0) := by
  have h := C10_zero_retries (fun _ => env3) (defaultParamsWithRetries 0)
    ["a", "b"] "a" rfl
  exact ⟨h.1, h.2.1 (by decide), h.2.2⟩

/-- C1: the batch operation is total: for every input string the result
dictionary's key set is exactly the set of distinct trimmed input terms,
with exactly one entry per distinct term, and every entry's value is the
(possibly null) resolution of that term — no error crosses the batch
boundary (the embedding of the per-term resolver is a total function,
every exception path inside it having been modelled as caught). -/
theorem C1_batch_totality (tenv : String → Env) (p : Params) (raw : String) :
    (∀ t, t ∈ dictKeys (fetchAccession tenv p raw) ↔ t ∈ splitTrim raw) ∧
    (dictKeys (fetchAccession tenv p raw)).Nodup ∧
    (∀ t ∈ splitTrim raw,
      dictLookup (fetchAccession tenv p raw) t
        = some ((fetchNuccore (tenv t) p t).1)) := by
  refine ⟨?_, ?_, ?_⟩
  · intro t
    have h := foldIns_mem_keys (fun u => (fetchNuccore (tenv u) p u).1)
      (splitTrim raw) [] t
    simpa [dictKeys] using h
  · exact foldIns_keys_nodup (fun u => (fetchNuccore (tenv u) p u).1)
      (splitTrim raw) [] List.nodup_nil
  · intro t ht
    exact foldIns_lookup_mem (fun u => (fetchNuccore (tenv u) p u).1)
      (splitTrim raw) [] t ht

/-- Witness for C1 on the input `"a, b,a"` (with a duplicate term and
stray whitespace): the key set is {a, b}, keys are unique, and the entry
for `a` holds `a`'s resolution. -/
theorem C1_batch_totality_witness :
    ("a" ∈ dictKeys (fetchAccession (fun _ => envEmptySearch)
        (defaultParamsWithRetries 5) "a, b,a")
      ↔ "a" ∈ splitTrim "a, b,a") ∧
    (dictKeys (fetchAccession (fun _ => envEmptySearch)
        (defaultParamsWithRetries 5) "a, b,a")).Nodup ∧
    dictLookup (fetchAccession (fun _ => envEmptySearch)
        (defaultParamsWithRetries 5) "a, b,a") "a"
      = some ((fetchNuccore envEmptySearch (defaultParamsWithRetries 5) "a").1) := by
  have h := C1_batch_totality (fun _ => envEmptySearch)
    (defaultParamsWithRetries 5) "a, b,a"
  exact ⟨h.1 "a", h.2.1, h.2.2 "a" (by decide)⟩

lemma rateSleeps_cons_net (d : ℚ) (tr : List Ev) :
    rateSleeps (.net d :: tr) = rateSleeps tr := rfl

lemma rateSleeps_cons_delay (d : ℚ) (tr : List Ev) :
    rateSleeps (.delay d :: tr) = rateSleeps tr := rfl

lemma rateSleeps_cons_rateSleep (d : ℚ) (tr : List Ev) :
    rateSleeps (.rateSleep d :: tr) = d :: rateSleeps tr := rfl

/-- The rate-limit sleeps of one `fetch_data` call whose local counter
starts at `ctr`: `2^ctr, 2^(ctr+1), …`, one per rate-limited response. -/
lemma rateSleeps_fetchDataGo {α : Type} (delay : ℚ) :
    ∀ (rl : Nat) (rlDur : Nat → ℚ) (dur : ℚ) (resp : Except FetchErr α)
      (ctr k : Nat),
      (∀ j, j < rl → rlDur (k + j) ≤ REQUEST_TIMEOUT) →
      rateSleeps (fetchDataGo delay rl rlDur dur resp ctr k).2
        = (List.range rl).map (fun j => (2 : ℚ) ^ (ctr + j)) := by
  intro rl
  induction rl with
  | zero =>
    intro rlDur dur resp ctr k _
    unfold fetchDataGo
    split
    · rfl
    · cases resp <;> rfl
  | succ n ih =>
    intro rlDur dur resp ctr k h
    unfold fetchDataGo
    rw [if_neg (not_lt.2 (by simpa using h 0 (by omega)))]
    rw [rateSleeps_cons_net, rateSleeps_cons_delay, rateSleeps_cons_rateSleep]
    rw [ih rlDur dur resp (ctr + 1) (k + 1) (fun j hj => by
      have hh := h (j + 1) (by omega)
      have e : k + (j + 1) = k + 1 + j := by omega
      rw [e] at hh
      exact hh)]
    rw [List.range_succ_eq_map, List.map_cons, List.map_map]
    congr 1
    apply List.map_congr_left
    intro a ha
    show (2 : ℚ) ^ (ctr + 1 + a) = (2 : ℚ) ^ (ctr + (a + 1))
    congr 1
    omega

/-- The rate-limit sleeps of `fetch_data(session, url, retries, params)`
when called with the term-level retry count `r`: `2^r, 2^(r+1), …` —
the local attempt counter is seeded with `r`. -/
lemma rateSleeps_runCall {α : Type} (b : CallBeh α) (r : Nat) (delay : ℚ)
    (h : ∀ j, j < b.rl → b.rlDur j ≤ REQUEST_TIMEOUT) :
    rateSleeps (runCall b r delay).2
      = (List.range b.rl).map (fun j => (2 : ℚ) ^ (r + j)) := by
  unfold runCall
  exact rateSleeps_fetchDataGo delay b.rl b.rlDur b.dur b.resp r 0
    (fun j hj => by simpa using h j hj)

/-- A call behaviour with exactly one rate-limited response. -/
def rlOnce : CallBeh (List String) :=
  { rl := 1, rlDur := fun _ => 1, dur := 1, resp := .ok [] }

/-- C6 counterexample: the claim says the wait before the k-th
consecutive re-issue of a call is `2^(k-1)` seconds regardless of the
term-level retry count.  But `fetch_data` is called with
`retries=retries` — the term-level count seeds the local counter — so
the same one-rate-limit call sleeps 1 second when the term-level count
is 0 yet 2 seconds when it is 1. -/
theorem C6_counterexample :
    rateSleeps (runCall rlOnce 0 (1/2)).2 = [(1 : ℚ)] ∧
    rateSleeps (runCall rlOnce 1 (1/2)).2 = [(2 : ℚ)] ∧
    (2 : ℚ) ≠ 1 := by
  refine ⟨?_, ?_, by norm_num⟩
  · rw [rateSleeps_runCall rlOnce 0 (1/2)
      (fun j _ => by norm_num [rlOnce, REQUEST_TIMEOUT])]
    norm_num [rlOnce, show List.range 1 = [0] from rfl]
  · rw [rateSleeps_runCall rlOnce 1 (1/2)
      (fun j _ => by norm_num [rlOnce, REQUEST_TIMEOUT])]
    norm_num [rlOnce, show List.range 1 = [0] from rfl]

/-- C6 (amended): on a rate-limit signal the client sleeps `2^attempt`
seconds and re-issues the call with the local counter incremented — but
the local counter is initialized to the term-level retry count `r`
passed into `fetch_data`, so the wait before the k-th consecutive
re-issue is `2^(r+k-1)` seconds: it does depend on the current
term-level retry count. -/
theorem C6_rate_limit_backoff {α : Type} (b : CallBeh α) (r : Nat)
    (delay : ℚ)
    (h : ∀ j, j < b.rl → b.rlDur j ≤ REQUEST_TIMEOUT) :
    rateSleeps (runCall b r delay).2
      = (List.range b.rl).map (fun j => (2 : ℚ) ^ (r + j)) :=
  rateSleeps_runCall b r delay h

/-- Witness for C6 at `rlOnce` with term-level retry count 1. -/
theorem C6_rate_limit_backoff_witness :
    rateSleeps (runCall rlOnce 1 (1/2)).2
      = (List.range rlOnce.rl).map (fun j => (2 : ℚ) ^ (1 + j)) :=
  C6_rate_limit_backoff rlOnce 1 (1/2)
    (fun j _ => by norm_num [rlOnce, REQUEST_TIMEOUT])

lemma elapsed_append (a b : List Ev) :
    elapsed (a ++ b) = elapsed a + elapsed b := by
  unfold elapsed
  rw [List.map_append, List.sum_append]

lemma elapsed_cons_searchCall (r : Nat) (tr : List Ev) :
    elapsed (.searchCall r :: tr) = elapsed tr := by
  unfold elapsed
  simp

lemma elapsed_cons_summaryCall (r : Nat) (uid : String) (tr : List Ev) :
    elapsed (.summaryCall r uid :: tr) = elapsed tr := by
  unfold elapsed
  simp

lemma runCall_okCall_slow {α : Type} (a : α) (d : ℚ) (r : Nat) (delay : ℚ)
    (hd : REQUEST_TIMEOUT < d) :
    runCall (okCall a d) r delay = (.error .timeout, [.net REQUEST_TIMEOUT]) := by
  unfold runCall okCall fetchDataGo
  rw [if_pos hd]

/-- Parameters with a 2-second per-attempt timeout. -/
def p5 : Params :=
  { api_key := none, timeout := 2, num_workers := 5, max_retries := 5,
    request_delay := 1/2 }

/-- Environment for the C5 counterexample: a fast search (1 s) followed
by a slow but under-15-second summary (10 s). -/
def env5 : Env :=
  { search := fun _ => okCall ["1"] 1,
    summary := fun _ _ => okCall sFound 10 }

/-- C5 counterexample: the claim says the entire per-attempt resolution —
search and every summary — runs under the `timeoutSeconds` budget, and
exceeding it anywhere raises a timeout handled as transient.  With a
2-second budget, a 1-second search and a 10-second summary, the attempt
takes 12 seconds total, yet it completes successfully with no timeout
and no retry: `asyncio.timeout(params.timeout)` wraps only the search
call (src/api/main.py lines 113-117); summaries run outside it. -/
theorem C5_counterexample :
    (fetchNuccore env5 p5 "X").1 = some "PQ880188.1" ∧
    (p5.timeout : ℚ) < elapsed (fetchNuccore env5 p5 "X").2 ∧
    backoffs (fetchNuccore env5 p5 "X").2 = [] := by
  have hs : runCall (env5.search 0) 0 p5.request_delay
      = (.ok ["1"], [.net 1, .delay p5.request_delay]) := by
    rw [show env5.search 0 = okCall ["1"] 1 from rfl,
      runCall_okCall _ _ _ _ (by norm_num [REQUEST_TIMEOUT])]
  have hel : elapsed (runCall (env5.search 0) 0 p5.request_delay).2
      ≤ (p5.timeout : ℚ) := by
    rw [hs, elapsed_net_delay]
    norm_num [p5]
  have hsum : runCall (env5.summary 0 "1") 0 p5.request_delay
      = (.ok sFound, [.net 10, .delay p5.request_delay]) := by
    rw [show env5.summary 0 "1" = okCall sFound 10 from rfl,
      runCall_okCall _ _ _ _ (by norm_num [REQUEST_TIMEOUT])]
  have hattempt : attempt env5 p5 "X" 0
      = (.done (some "PQ880188.1"),
         (Ev.searchCall 0 :: (runCall (env5.search 0) 0 p5.request_delay).2)
           ++ (Ev.summaryCall 0 "1"
               :: (runCall (env5.summary 0 "1") 0 p5.request_delay).2)) := by
    rw [attempt_of_search_ids env5 p5 "X" 0 "1" [] (by rw [hs]) hel,
      ids_truncate, take10_one,
      scanIds_ok env5 p5 "X" 0 "1" [] sFound (by rw [hsum]),
      show candStep "X" sFound = .found "PQ880188.1" from by decide]
  have hfull : fetchNuccore env5 p5 "X"
      = (some "PQ880188.1", (attempt env5 p5 "X" 0).2) := by
    unfold fetchNuccore
    rw [show p5.max_retries = 4 + 1 from rfl,
      fetchLoop_done env5 p5 "X" 0 4 (some "PQ880188.1") (by rw [hattempt])]
  refine ⟨by rw [hfull], ?_, ?_⟩
  · rw [hfull]
    show (p5.timeout : ℚ) < elapsed (attempt env5 p5 "X" 0).2
    rw [hattempt]
    show (p5.timeout : ℚ)
      < elapsed ((Ev.searchCall 0 :: (runCall (env5.search 0) 0 p5.request_delay).2)
          ++ (Ev.summaryCall 0 "1"
              :: (runCall (env5.summary 0 "1") 0 p5.request_delay).2))
    rw [elapsed_append, hs, hsum, elapsed_cons_searchCall,
      elapsed_cons_summaryCall, elapsed_net_delay, elapsed_net_delay]
    norm_num [p5]
  · rw [hfull]
    exact backoffs_attempt env5 p5 "X" 0

/-- C5 (amended): only the search call of an attempt runs under the
configured per-attempt `timeout` budget (exceeding it makes the attempt
a transient timeout, retried with backoff); each individual request —
search or summary — is separately bounded by the fixed 15-second
request timeout, a breach of which surfaces as a timeout error from the
call. -/
theorem C5_timeout_scope (env : Env) (p : Params) (term uid : String)
    (r : Nat) :
    ((p.timeout : ℚ) < elapsed (runCall (env.search r) r p.request_delay).2 →
      (attempt env p term r).1 = .transient .timeout) ∧
    ((env.summary r uid).rl = 0 → REQUEST_TIMEOUT < (env.summary r uid).dur →
      (runCall (env.summary r uid) r p.request_delay).1 = .error .timeout) ∧
    ((attempt env p term 0).1 = .transient .timeout → 1 ≤ p.max_retries →
      (backoffs (fetchNuccore env p term).2).take 1
        = [min (1 + 2 ^ 0) (10 : ℚ)]) := by
  refine ⟨?_, ?_, ?_⟩
  · intro h
    rw [attempt_of_search_timeout env p term r h]
  · intro h0 hd
    unfold runCall
    rw [h0]
    simp only [fetchDataGo]
    rw [if_pos hd]
  · intro h0 hmr
    obtain ⟨n, hn⟩ : ∃ n, p.max_retries = n + 1 := ⟨p.max_retries - 1, by omega⟩
    unfold fetchNuccore
    rw [hn, fetchLoop_transient env p term 0 n .timeout h0]
    simp only [backoffs_append, backoffs_attempt, List.nil_append,
      backoffs_cons_backoffSleep]
    rfl

/-- Environment whose calls all take 20 seconds of network time. -/
def envSlow : Env :=
  { search := fun _ => okCall ["1"] 20,
    summary := fun _ _ => okCall sFound 20 }

/-- Witness for C5 in `envSlow` with the 2-second budget: the search
overrunning the budget makes the attempt a transient timeout, a
20-second summary request trips the fixed 15-second request timeout,
and the transient timeout is retried after the `min(1+2^0,10)`
backoff. -/
theorem C5_timeout_scope_witness :
    (attempt envSlow p5 "X" 0).1 = .transient .timeout ∧
    (runCall (envSlow.summary 0 "1") 0 p5.request_delay).1 = .error .timeout ∧
    (backoffs (fetchNuccore envSlow p5 "X").2).take 1
      = [min (1 + 2 ^ 0) (10 : ℚ)] := by
  have hel : (p5.timeout : ℚ)
      < elapsed (runCall (envSlow.search 0) 0 p5.request_delay).2 := by
    rw [show envSlow.search 0 = okCall ["1"] 20 from rfl,
      runCall_okCall_slow _ _ _ _ (by norm_num [REQUEST_TIMEOUT]), elapsed_net]
    norm_num [p5, REQUEST_TIMEOUT]
  have h1 := (C5_timeout_scope envSlow p5 "X" "1" 0).1 hel
  refine ⟨h1, ?_, ?_⟩
  · exact (C5_timeout_scope envSlow p5 "X" "1" 0).2.1 rfl
      (by norm_num [envSlow, okCall, REQUEST_TIMEOUT])
  · exact (C5_timeout_scope envSlow p5 "X" "1" 0).2.2 h1
      (by norm_num [p5])

/-- C8: at no point during a batch run are more than 3 remote-call
sequences in flight, for every worker count in [1, 10]: the permit of
capacity 3, acquired once per term and held for the whole retry
sequence, bounds the number of holding tasks in every reachable pool
state, independently of the worker count. -/
theorem C8_concurrency_cap (w : Nat) (_hw1 : 1 ≤ w) (_hw2 : w ≤ 10)
    (s : List TaskSt) (hs : PoolReach w s) :
    countSt TaskSt.holding s ≤ 3 := by
  induction hs with
  | init n =>
    rw [countSt_replicate_pending TaskSt.holding n (by decide)]
    omega
  | step hr hst ih =>
    cases hst with
    | claim i h hget hcnt =>
      have hc := countSt_set TaskSt.holding TaskSt.waiting _ i h
      rw [hget] at hc
      simp only [reduceCtorEq, if_false] at hc
      omega
    | acquire i h hget hcnt =>
      have hc := countSt_set TaskSt.holding TaskSt.holding _ i h
      rw [hget] at hc
      simp only [reduceCtorEq, if_false, eq_self_iff_true, if_true] at hc
      omega
    | release i h hget =>
      have hc := countSt_set TaskSt.holding TaskSt.finished _ i h
      rw [hget] at hc
      simp only [reduceCtorEq, if_false, eq_self_iff_true, if_true] at hc
      omega

/-- Witness for C8: with 5 workers, the state reached by claiming one
term and acquiring the permit for it has 1 ≤ 3 holders. -/
theorem C8_concurrency_cap_witness :
    countSt TaskSt.holding [TaskSt.holding] ≤ 3 := by
  have h0 : PoolReach 5 [TaskSt.pending] := PoolReach.init 1
  have h1 : PoolReach 5 [TaskSt.waiting] :=
    PoolReach.step h0
      (PoolStep.claim [TaskSt.pending] 0 (by decide) rfl (by decide))
  have h2 : PoolReach 5 [TaskSt.holding] :=
    PoolReach.step h1
      (PoolStep.acquire [TaskSt.waiting] 0 (by decide) rfl (by decide))
  exact C8_concurrency_cap 5 (by decide) (by decide) [TaskSt.holding] h2

end NCBI
